import Mathlib

/-!
Shallow embedding of the trigger-driven action scheduler of
`research/fragattack.py` (classes `Action`, `Test` and its subclasses,
`Station`), together with proofs of the specification claims about it.

External collaborators (scapy packet construction, `create_fragments`,
the CCMP/WEP primitives, the control channel, scenario callback bodies)
are abstracted into an `Ext` record of opaque functions, as the spec
declares them out of scope.  Python object identity of `Action` objects
is modelled by a ghost `id` field together with a ghost allocation
counter `supply` on the station; Python `None` becomes `Option`.
Machine-visible crashes (failed `assert`, calling methods on `None`)
are modelled by `Except Unit` / `Option` error results.
-/

namespace Fragattack

/-- A MAC address, as a list of octets (`"ff:ff:ff:ff:ff:ff"` etc.). -/
abbrev Mac : Type := List Nat

/-- The broadcast address `ff:ff:ff:ff:ff:ff`. -/
def bcastMac : Mac := List.replicate 6 255

/-- An 802.11 frame, keeping the header fields the embedded code reads or
writes (`scapy` `Dot11`/`Dot11QoS`).  Payload content built by the external
packet-construction collaborator is condensed into the opaque `body` token.
`tid = none` means the frame carries no QoS header. -/
structure Frame where
  ftype : Nat
  subtype : Nat
  FCfield : Nat
  SC : Nat
  Reserved : Nat
  tid : Option Nat
  addr1 : Option Mac
  addr2 : Option Mac
  addr3 : Option Mac
  body : Nat
  deriving DecidableEq

/-- A bare `Dot11()` management frame with scapy defaults (all fields zero,
addresses unset). -/
def dot11Default : Frame :=
  { ftype := 0, subtype := 0, FCfield := 0, SC := 0, Reserved := 0,
    tid := none, addr1 := none, addr2 := none, addr3 := none, body := 0 }

/-- The `Action.StartAuth`/`BeforeAuth`/`AfterAuth`/`Connected` trigger
constants (`range(4)` in the source). -/
inductive Trigger where
  | startAuth
  | beforeAuth
  | afterAuth
  | connected
  deriving DecidableEq

/-- The `Action.GetIp`/`Rekey`/`Reconnect`/`Roam`/`Inject`/`Func` operation
kind constants (`range(6)` in the source). -/
inductive AKind where
  | getIp
  | rekey
  | reconnect
  | roam
  | inject
  | func
  deriving DecidableEq

/-- One scheduled step of a test scenario (`class Action`).  `id` is a ghost
tag standing for Python object identity; `func` is an opaque token naming a
scenario callback. -/
structure Action where
  id : Nat
  trigger : Trigger
  action : AKind
  func : Option Nat
  wait : Bool
  encrypted : Bool
  incPn : Int
  delay : Option Int
  frame : Option Frame
  key : Option Nat
  deriving DecidableEq

/-- `Action.__init__`: if a `func` is given the kind is overridden to `Func`;
a `wait` of `None` defaults to whether the *`action` argument* is one of
`Rekey`, `Reconnect`, `Roam`. -/
def Action.init (id : Nat) (trigger : Trigger) (action : AKind)
    (func : Option Nat) (enc : Bool) (frame : Option Frame) (incPn : Int)
    (delay : Option Int) (wait : Option Bool) (key : Option Nat) : Action :=
  let action' := if func.isSome then AKind.func else action
  let wait' := wait.getD
    (decide (action = AKind.rekey ∨ action = AKind.reconnect ∨ action = AKind.roam))
  { id := id, trigger := trigger, action := action', func := func,
    wait := wait', encrypted := enc, incPn := incPn, delay := delay,
    frame := frame, key := key }

/-- Ghost object identities of a queue of actions. -/
def idsOf (l : List Action) : List Nat := l.map Action.id

/-- The scenario-specific `prepare` routine of each `Test` subclass defined
in the source, as a tag interpreted by `prepAct` below.  The parameters are
the subclass constructor arguments (`ptype`, `bcast`, `separate_with`,
`as_msdu`). -/
inductive Prep where
  | ping (ptype : Nat) (bcast : Bool) (sepWith : Option Frame) (asMsdu : Bool)
  | linux (ptype : Nat)
  | macos (ptype : Nat)
  | eapol
  | eapolMsdu (ptype : Nat)
  deriving DecidableEq

/-- `class Test`: the ordered action queue, the `generated` flag, and the
`delay`/`inc_pn` overrides installed by `set_options`.  `genCount` is a
ghost counter of how many times `generate` has run (it is not program
state; it only witnesses claim C2). -/
structure Test where
  actions : List Action
  generated : Bool
  delay : Option Int
  incPn : Option Int
  prep : Prep
  genCount : Nat
  deriving DecidableEq

/-- `TestOptions` (the fields the scheduler core reads). -/
structure TestOptions where
  injectWorkaround : Bool
  deriving DecidableEq

/-- `class Station`: per-peer runtime state.  `supply` is the ghost
allocation counter for `Action` identities. -/
structure Station where
  options : TestOptions
  test : Option Test
  txedBeforeAuth : Bool
  txedBeforeAuthDone : Bool
  obtainedIp : Bool
  waitingOnIp : Bool
  tk : Option (List Nat)
  gtk : Option (List Nat)
  gtkIdx : Option Nat
  pn : Int
  FCfield : Nat
  seqnum : Nat
  mac : Mac
  ip : Option Nat
  bss : Option Mac
  peermac : Option Mac
  peerip : Option Nat
  othermac : Option Mac
  supply : Nat
  deriving DecidableEq

/-- `Station.reset_keys`. -/
def resetKeys (st : Station) : Station :=
  { st with tk := none, gtk := none, gtkIdx := none }

/-- `Station.__init__`: note that the packet number starts at `0x100` and is
deliberately not part of `reset_keys`. -/
def Station.init (options : TestOptions) (test : Option Test) (mac : Mac)
    (dsStatus : Nat) (supply : Nat) : Station :=
  resetKeys
    { options := options, test := test,
      txedBeforeAuth := false, txedBeforeAuthDone := false,
      obtainedIp := false, waitingOnIp := false,
      tk := none, gtk := none, gtkIdx := none,
      pn := 0x100, FCfield := dsStatus, seqnum := 1,
      mac := mac, ip := none, bss := none,
      peermac := none, peerip := none, othermac := none,
      supply := supply }

/-- `Station.handle_connecting`: record the BSS and clear the keys on a new
connection. -/
def handleConnecting (st : Station) (bss : Mac) : Station :=
  resetKeys { st with bss := some bss }

/-- `Station.update_keys`, with the key material fetched from the daemon
passed in explicitly. -/
def updateKeys (st : Station) (tk gtk : List Nat) (idx : Nat) : Station :=
  { st with tk := some tk, gtk := some gtk, gtkIdx := some idx }

/-- `Station.get_peermac`: fall back to the BSS MAC when the peer MAC is not
yet known. -/
def getPeermac (st : Station) : Option Mac :=
  match st.peermac with
  | none => st.bss
  | some m => some m

/-- `Station.set_header` (with `forward=False`): set the to-DS/from-DS bits,
optionally attach a QoS header, and fill in the address fields.  The two
`assert`s of the source are trivially satisfied at every modelled call site
(`forward` is always false and `prior` is only given for data frames). -/
def setHeader (st : Station) (p : Frame) (prior : Option Nat) : Frame :=
  let p := { p with FCfield := p.FCfield ||| st.FCfield }
  let p :=
    match prior with
    | none => p
    | some pr => { p with subtype := 8, tid := some pr }
  if p.FCfield &&& 1 ≠ 0 then
    { p with addr1 := st.bss, addr2 := some st.mac, addr3 := getPeermac st }
  else
    { p with addr1 := st.peermac, addr2 := some st.mac, addr3 := st.bss }

/-- `Station.get_header` (with `seqnum=None`): build a fresh data-frame
header and advance the station's sequence number. -/
def getHeader (st : Station) (prior : Nat) : Frame × Station :=
  let header : Frame :=
    { ftype := 2, subtype := 0, FCfield := 0, SC := st.seqnum <<< 4,
      Reserved := 0, tid := none, addr1 := none, addr2 := none,
      addr3 := none, body := 0 }
  (setHeader st header (some prior), { st with seqnum := st.seqnum + 1 })

/-- The `REQ_ARP`, `REQ_ICMP`, `REQ_DHCP` request-type constants. -/
def REQ_ARP : Nat := 0

/-- `REQ_ICMP` request-type constant. -/
def REQ_ICMP : Nat := 1

/-- `REQ_DHCP` request-type constant. -/
def REQ_DHCP : Nat := 2

/-- The external collaborators the core calls into, as opaque functions:
packet construction (`create_fragments`, the ARP/ICMP/DHCP/EAPOL payload
builders, `add_msdu_frag`), the crypto primitives `encrypt_ccmp` /
`encrypt_wep`, and the scenario callback bodies (`act.func`).  Payloads are
opaque `Nat` tokens. -/
structure Ext where
  createFragments : Frame → Nat → Nat → List Frame
  mkRequest : Nat → Station → Nat
  addMsduFrag : Mac → Option Mac → Nat → Nat
  eapolRequest : Nat
  eapolMsduWrap : Mac → Option Mac → Nat → Nat
  encryptCCMP : Frame → List Nat → Int → Option Nat → Frame
  encryptWEP : Frame → List Nat → Int → Option Nat → Frame
  callFunc : Nat → Option Nat

/-- `generate_request(sta, ptype)`: build the default header (advancing the
sequence number) and an opaque request payload; a DHCP discover is addressed
to the broadcast BSS.  The success-check closure it also returns is not part
of the scheduler state and is not modelled. -/
def generateRequest (e : Ext) (st : Station) (ptype : Nat) :
    Frame × Nat × Station :=
  let (header, st) := getHeader st 2
  let req := e.mkRequest ptype st
  let header := if ptype = REQ_DHCP then { header with addr3 := some bcastMac }
                else header
  (header, req, st)

/-- Replace the frame of the action at index `i` (Python
`self.actions[i].frame = fr`; out-of-range writes cannot occur at the
modelled call sites). -/
def setFrameAt (l : List Action) (i : Nat) (fr : Frame) : List Action :=
  match l, i with
  | [], _ => []
  | a :: rest, 0 => { a with frame := some fr } :: rest
  | a :: rest, Nat.succ j => a :: setFrameAt rest j fr

/-- The `zip` of `PingTest.prepare`: walk the queue, giving each `Inject`
action the next generated frame (to the broadcast address when `bcast` is
set), until the frames run out. -/
def assignFrames (bcast : Bool) : List Action → List Frame → List Action
  | [], _ => []
  | a :: rest, frames =>
    if a.action = AKind.inject then
      match frames with
      | [] => a :: assignFrames bcast rest []
      | f :: fs =>
        let f := if bcast then { f with addr1 := some bcastMac } else f
        { a with frame := some f } :: assignFrames bcast rest fs
    else a :: assignFrames bcast rest frames

/-- The separator-insertion loop of `PingTest.prepare`: a fresh separator
`Inject` action (built through `Action.__init__`, frame set by
`set_header`) is inserted after every `Inject` action that is not the last
element of the queue.  Separator actions draw fresh ghost identities from
the station's allocation counter. -/
def sepInsert (sepF : Frame) (st : Station) : List Action → List Action × Station
  | [] => ([], st)
  | [a] => ([a], st)
  | a :: b :: rest =>
    if a.action = AKind.inject then
      let sep0 := Action.init st.supply a.trigger AKind.inject none
        a.encrypted none 1 none none none
      let sep := { sep0 with frame := some (setHeader st sepF none) }
      let (tl, st') := sepInsert sepF { st with supply := st.supply + 1 } (b :: rest)
      (a :: sep :: tl, st')
    else
      let (tl, st') := sepInsert sepF st (b :: rest)
      (a :: tl, st')

/-- The header/request/fragment construction of `PingTest.prepare`: build
the default request (advancing the sequence number), apply the A-MSDU
masquerade when requested, and split into `n` fragments. -/
def pingFrames (ptype : Nat) (asMsdu : Bool) (e : Ext) (st : Station)
    (n : Nat) : List Frame × Station :=
  let (header, req, st) := generateRequest e st ptype
  let header := if asMsdu then { header with Reserved := 1 } else header
  let req := if asMsdu then e.addMsduFrag st.mac (getPeermac st) req else req
  (e.createFragments header req n, st)

/-- `PingTest.prepare`. -/
def pingPrepare (ptype : Nat) (bcast : Bool) (sepWith : Option Frame)
    (asMsdu : Bool) (e : Ext) (st : Station) (acts : List Action) :
    List Action × Station :=
  let (frames, st) := pingFrames ptype asMsdu e st
    ((acts.filter (fun a => a.action = AKind.inject)).length)
  let acts := assignFrames bcast acts frames
  match sepWith with
  | none => (acts, st)
  | some sepF => sepInsert sepF st acts

/-- `LinuxTest.prepare`: fragment 1 unmodified, fragment 2 with bit 4 of the
sequence-control field flipped on a copy, and the original fragment 2 as the
third action's frame. -/
def linuxPrepare (ptype : Nat) (e : Ext) (st : Station) (acts : List Action) :
    List Action × Station :=
  let (header, req, st) := generateRequest e st ptype
  let frames := e.createFragments header req 2
  let frag1 := frames.getD 0 dot11Default
  let frag2 := frames.getD 1 dot11Default
  let frag2enc := { frag2 with SC := frag2.SC ^^^ (1 <<< 4) }
  let acts := setFrameAt acts 0 frag1
  let acts := setFrameAt acts 1 frag2enc
  let acts := setFrameAt acts 2 frag2
  (acts, st)

/-- `MacOsTest.prepare`. -/
def macosPrepare (ptype : Nat) (e : Ext) (st : Station) (acts : List Action) :
    List Action × Station :=
  let (header, st) := getHeader st 2
  let frames1 := e.createFragments header e.eapolRequest 2
  let frag1 := frames1.getD 0 dot11Default
  let (_, req, st) := generateRequest e st ptype
  let frames2 := e.createFragments header req 1
  let frag2 := frames2.getD 0 dot11Default
  let frag2 := { frag2 with SC := frag2.SC ||| 1, addr1 := some bcastMac }
  let acts := setFrameAt acts 0 frag1
  let acts := setFrameAt acts 1 frag2
  (acts, st)

/-- `EapolTest.prepare` (the source assigns `actions[0].frame` twice and
never `actions[1].frame`; this is modelled verbatim). -/
def eapolPrepare (e : Ext) (st : Station) (acts : List Action) :
    List Action × Station :=
  let (header, st) := getHeader st 2
  let frames := e.createFragments header e.eapolRequest 2
  let frag1 := frames.getD 0 dot11Default
  let frag2 := frames.getD 1 dot11Default
  let acts := setFrameAt acts 0 frag1
  let acts := setFrameAt acts 0 frag2
  (acts, st)

/-- `EapolMsduTest.prepare`. -/
def eapolMsduPrepare (ptype : Nat) (e : Ext) (st : Station) (acts : List Action) :
    List Action × Station :=
  let (header, req, st) := generateRequest e st ptype
  let header := { header with Reserved := 1 }
  let req := e.eapolMsduWrap st.mac (getPeermac st) req
  let frames := e.createFragments header req 1
  let auth := setHeader st dot11Default none
  let auth := { auth with addr2 := some [0x00, 0x11, 0x22, 0x33, 0x44, 0x55] }
  let acts := setFrameAt acts 0 auth
  let acts := setFrameAt acts 1 (frames.getD 0 dot11Default)
  (acts, st)

/-- Dispatch a `Prep` tag to its subclass `prepare` routine. -/
def prepAct : Prep → Ext → Station → List Action → List Action × Station
  | Prep.ping pt bc sw am, e, st, acts => pingPrepare pt bc sw am e st acts
  | Prep.linux pt, e, st, acts => linuxPrepare pt e st acts
  | Prep.macos pt, e, st, acts => macosPrepare pt e st acts
  | Prep.eapol, e, st, acts => eapolPrepare e st acts
  | Prep.eapolMsdu pt, e, st, acts => eapolMsduPrepare pt e st acts

/-- Apply `f` to every `Inject` action strictly after the first `Inject`
action of the queue (`self.get_actions(Action.Inject)[1:]`). -/
def setInjectsAfterFirst (f : Action → Action) : List Action → List Action
  | [] => []
  | a :: rest =>
    if a.action = AKind.inject then
      a :: rest.map (fun b => if b.action = AKind.inject then f b else b)
    else a :: setInjectsAfterFirst f rest

/-- `Test.enforce_delay`: nothing happens unless a positive global delay
override was set. -/
def enforceDelay (delay : Option Int) (acts : List Action) : List Action :=
  match delay with
  | none => acts
  | some d =>
    if d ≤ 0 then acts
    else setInjectsAfterFirst (fun a => { a with delay := some d }) acts

/-- `Test.enforce_inc_pn` (no positivity check in the source). -/
def enforceIncPn (incPn : Option Int) (acts : List Action) : List Action :=
  match incPn with
  | none => acts
  | some v => setInjectsAfterFirst (fun a => { a with incPn := v }) acts

/-- `Test.generate`: run the scenario's `prepare`, then apply the
delay/packet-number overrides.  The ghost `genCount` records the
invocation. -/
def generate (e : Ext) (t : Test) (st : Station) : Test × Station :=
  let (acts, st') := prepAct t.prep e st t.actions
  let acts := enforceIncPn t.incPn (enforceDelay t.delay acts)
  ({ t with actions := acts, genCount := t.genCount + 1 }, st')

/-- The generation phase at the head of `Test.next_action`: generate (and
mark `generated`) exactly when the head action is an `Inject` and frames
have not been generated yet. -/
def maybeGenerate (e : Ext) (t : Test) (st : Station) : Test × Station :=
  match t.actions with
  | [] => (t, st)
  | a0 :: _ =>
    if a0.action = AKind.inject ∧ t.generated = false then
      let (t', st') := generate e t st
      ({ t' with generated := true }, st')
    else (t, st)

/-- `Test.next_trigger_is`. -/
def nextTriggerIs (t : Test) (trigger : Trigger) : Bool :=
  match t.actions with
  | [] => false
  | a :: _ => decide (a.trigger = trigger)

/-- `Test.next_action`: `None` on an empty queue; otherwise run the
generation phase if needed, then pop and return the head. -/
def nextAction (e : Ext) (t : Test) (st : Station) :
    Option Action × Test × Station :=
  match t.actions with
  | [] => (none, t, st)
  | _ :: _ =>
    let (t1, st1) := maybeGenerate e t st
    match t1.actions with
    | [] => (none, t1, st1)
    | a :: rest => (some a, { t1 with actions := rest }, st1)

/-- Iterate `next_action` `n` times, collecting the returned actions. -/
def runN (e : Ext) : Nat → Test → Station → List Action × Test × Station
  | 0, t, st => ([], t, st)
  | Nat.succ n, t, st =>
    match nextAction e t st with
    | (none, t', st') => ([], t', st')
    | (some a, t', st') =>
      let (outs, t'', st'') := runN e n t' st'
      (a :: outs, t'', st'')

/-- `Test.__init__` common part: fresh tests start with `generated = False`
and no overrides; no frame generation happens at construction
(ghost `genCount = 0`). -/
def Test.base (actions : List Action) (prep : Prep) : Test :=
  { actions := actions, generated := false, delay := none, incPn := none,
    prep := prep, genCount := 0 }

/-- `PingTest.__init__`. -/
def mkPingTest (ptype : Nat) (fragments : List Action) (bcast : Bool)
    (sepWith : Option Frame) (asMsdu : Bool) : Test :=
  Test.base fragments (Prep.ping ptype bcast sepWith asMsdu)

/-- `LinuxTest.__init__`: two encrypted and one plaintext `Inject` on the
`Connected` trigger.  `idBase` seeds the ghost identities of the three
`Action` objects. -/
def mkLinuxTest (idBase : Nat) (ptype : Nat) : Test :=
  Test.base
    [Action.init idBase Trigger.connected AKind.inject none true none 1 none none none,
     Action.init (idBase + 1) Trigger.connected AKind.inject none true none 1 none none none,
     Action.init (idBase + 2) Trigger.connected AKind.inject none false none 1 none none none]
    (Prep.linux ptype)

/-- `MacOsTest.__init__`. -/
def mkMacosTest (ptype : Nat) (actions : List Action) : Test :=
  Test.base actions (Prep.macos ptype)

/-- `EapolTest.__init__`. -/
def mkEapolTest (idBase : Nat) : Test :=
  Test.base
    [Action.init idBase Trigger.beforeAuth AKind.inject none false none 1 none none none,
     Action.init (idBase + 1) Trigger.beforeAuth AKind.inject none false none 1 none none none]
    Prep.eapol

/-- `EapolMsduTest.__init__`. -/
def mkEapolMsduTest (ptype : Nat) (actions : List Action) : Test :=
  Test.base actions (Prep.eapolMsdu ptype)

/-- `Test.set_options`. -/
def setOptions (t : Test) (delay incPn : Option Int) : Test :=
  { t with delay := delay, incPn := incPn }

/-- `Station.encrypt`: bump the packet number by `inc_pn`, pick the key and
key index from the low bit of the first octet of `addr1` (multicast uses the
group key), optionally substitute an all-zero key of the same length, and
call the CCMP primitive for 16-byte keys and the WEP primitive otherwise.
`none` models the `TypeError` raised when `addr1` or the selected key is
`None`. -/
def encrypt (e : Ext) (st : Station) (frame : Frame) (incPn : Int)
    (forceKey : Option Nat) : Option (Frame × Station) :=
  let st := { st with pn := st.pn + incPn }
  match frame.addr1 with
  | none => none
  | some a1 =>
    match (if (a1.headD 0) &&& 1 = 0 then (st.tk, some 0) else (st.gtk, st.gtkIdx) :
        Option (List Nat) × Option Nat) with
    | (none, _) => none
    | (some key, keyid) =>
      let key := if forceKey = some 0 then List.replicate key.length 0 else key
      let encd := if key.length = 16 then e.encryptCCMP frame key st.pn keyid
                  else e.encryptWEP frame key st.pn keyid
      some (encd, st)

/-- The externally observable steps of `Station.perform_actions`: daemon
calls, the scenario callback invocation, the pre-injection sleep, and frame
transmission via `daemon.inject_mon`. -/
inductive Effect where
  | getIp
  | rekey
  | roam
  | reconnect
  | invoked (tok : Nat)
  | sleep (d : Int)
  | tx (f : Frame)
  deriving DecidableEq

/-- The optional pre-injection sleep of an `Inject` action
(`if act.delay != None and act.delay > 0: time.sleep(act.delay)`). -/
def delayEffs (act : Action) : List Effect :=
  match act.delay with
  | some d => if 0 < d then [Effect.sleep d] else []
  | none => []

/-- Execute one popped action (the body of the `while` loop of
`perform_actions`).  Returns the new station, the updated `frame` variable
(last transmitted frame), the updated `result`, the emitted effects, and
whether the loop must `break`.  `error` models an uncaught Python exception
(a failed `assert`, or use of a `None` frame/callback). -/
def execAct (e : Ext) (st : Station) (lastF : Option Frame)
    (res : Option Nat) (act : Action) :
    Except Unit (Station × Option Frame × Option Nat × List Effect × Bool) :=
  match act.action with
  | AKind.getIp =>
    if st.obtainedIp = false then
      Except.ok ({ st with waitingOnIp := true }, lastF, res, [Effect.getIp], true)
    else Except.ok (st, lastF, res, [], act.wait)
  | AKind.func =>
    match act.func with
    | none => Except.error ()
    | some tok => Except.ok (st, lastF, e.callFunc tok, [Effect.invoked tok], act.wait)
  | AKind.rekey => Except.ok (st, lastF, res, [Effect.rekey], act.wait)
  | AKind.roam => Except.ok (st, lastF, res, [Effect.roam], act.wait)
  | AKind.reconnect => Except.ok (st, lastF, res, [Effect.reconnect], act.wait)
  | AKind.inject =>
    let dEffs : List Effect := delayEffs act
    if act.encrypted = true then
      if st.tk = none ∨ st.gtk = none then Except.error ()
      else
        match act.frame with
        | none => Except.error ()
        | some f =>
          match encrypt e st f act.incPn act.key with
          | none => Except.error ()
          | some (encd, st') =>
            Except.ok (st', some encd, res, dEffs ++ [Effect.tx encd], act.wait)
    else
      match act.frame with
      | none => Except.error ()
      | some f => Except.ok (st, some f, res, dEffs ++ [Effect.tx f], act.wait)

/-- The `while self.test.next_trigger_is(trigger)` loop of
`perform_actions`, with a fuel bound (exhausted fuel is an `error`, so `ok`
results are exactly the runs the Python loop completes). -/
def paLoop (e : Ext) (trigger : Trigger) :
    Nat → Station → Option Frame → Option Nat → List Effect →
    Except Unit (Station × Option Frame × Option Nat × List Effect)
  | 0, _, _, _, _ => Except.error ()
  | Nat.succ fuel, st, lastF, res, effs =>
    match st.test with
    | none => Except.ok (st, lastF, res, effs)
    | some t =>
      if nextTriggerIs t trigger = true then
        match nextAction e t st with
        | (oact, t', st') =>
          let st1 := { st' with test := some t' }
          match oact with
          | none => Except.ok (st1, lastF, res, effs)
          | some act =>
            match execAct e st1 lastF res act with
            | Except.error () => Except.error ()
            | Except.ok (st2, lastF2, res2, effs2, brk) =>
              if brk then Except.ok (st2, lastF2, res2, effs ++ effs2)
              else paLoop e trigger fuel st2 lastF2 res2 (effs ++ effs2)
      else Except.ok (st, lastF, res, effs)

/-- The dummy frame `Dot11(addr1="ff:ff:ff:ff:ff:ff")` of the ath9k_htc
workaround. -/
def dummyFrame : Frame := { dot11Default with addr1 := some bcastMac }

/-- `frame != None and frame.FCfield & 0x4 != 0`: the carried last frame
exists and has the more-fragments flag set. -/
def mfSet : Option Frame → Bool
  | some f => decide (f.FCfield &&& 4 ≠ 0)
  | none => false

/-- One step of scanning an effect list for the most recent transmission. -/
def lastTxUpd (acc : Option Frame) (eff : Effect) : Option Frame :=
  match eff with
  | Effect.tx f => some f
  | _ => acc

/-- The last frame transmitted in an effect list (specification-side view
of the `frame` variable of `perform_actions`). -/
def lastTxFrame (effs : List Effect) : Option Frame :=
  effs.foldl lastTxUpd none

/-- `Station.perform_actions`: a no-op when no test is active; otherwise
drain matching actions, then apply the ath9k_htc dummy-frame workaround
when enabled and the last transmitted frame had the more-fragments flag
set. -/
def performActions (e : Ext) (fuel : Nat) (st : Station) (trigger : Trigger) :
    Except Unit (Station × List Effect × Option Nat) :=
  match st.test with
  | none => Except.ok (st, [], none)
  | some _ =>
    match paLoop e trigger fuel st none none [] with
    | Except.error () => Except.error ()
    | Except.ok (st', lastF, res, effs) =>
      let effs :=
        if st'.options.injectWorkaround && mfSet lastF then
          effs ++ [Effect.tx dummyFrame]
        else effs
      Except.ok (st', effs, res)

/-- The frame assigned to the action at index `i` of a queue. -/
def frameAt (l : List Action) (i : Nat) : Option Frame :=
  (l.get? i).bind Action.frame

/-- A concrete instantiation of the external collaborators, used to
evaluate the scheduler on closed inputs: fragments are copies of the
header, payload tokens are `0`, encryption returns the frame unchanged and
callbacks return `none`. -/
def extId : Ext :=
  { createFragments := fun h _ n => List.replicate n h,
    mkRequest := fun _ _ => 0,
    addMsduFrag := fun _ _ r => r,
    eapolRequest := 0,
    eapolMsduWrap := fun _ _ r => r,
    encryptCCMP := fun f _ _ _ => f,
    encryptWEP := fun f _ _ _ => f,
    callFunc := fun _ => none }

/-- A concrete base station (unicast own MAC, to-DS direction, ghost
allocation counter at 100). -/
def stBase : Station :=
  Station.init { injectWorkaround := false } none [2, 0, 0, 0, 0, 1] 1 100

/-- The (unmodified) second fragment produced inside `LinuxTest.prepare`,
named for use in the statement of claim C9. -/
def linFrag2 (e : Ext) (st : Station) (pt : Nat) : Frame :=
  (e.createFragments (generateRequest e st pt).1 (generateRequest e st pt).2.1 2).getD 1
    dot11Default

/-- A data frame to the unicast address `02:00:00:00:00:01`. -/
def unicastFrame : Frame := { dot11Default with addr1 := some [2, 0, 0, 0, 0, 1] }

/-- A data frame to the multicast address `01:00:00:00:00:01`. -/
def mcastFrame : Frame := { dot11Default with addr1 := some [1, 0, 0, 0, 0, 1] }

/-- `stBase` with only a pairwise key installed. -/
def stTk : Station := { stBase with tk := some (List.replicate 16 7) }

/-- `stBase` with pairwise and group keys installed. -/
def stKeys : Station :=
  { stBase with tk := some (List.replicate 16 7),
                gtk := some (List.replicate 16 9), gtkIdx := some 1 }

/-- A concrete encrypted `Inject` action on the `Connected` trigger. -/
def actEnc : Action :=
  Action.init 12 Trigger.connected AKind.inject none true (some unicastFrame) 1 none none none

/-- A generated single-action test holding `actEnc`. -/
def tAbort : Test :=
  { actions := [actEnc], generated := true, delay := none, incPn := none,
    prep := Prep.eapol, genCount := 1 }

/-- A keyless station about to run `tAbort`. -/
def stAbort : Station := { stBase with test := some tAbort }

/-- An `Action` built with both a callback and an explicit `Rekey` kind
argument (counterexample input for claim C3). -/
def actFuncRekey : Action :=
  Action.init 1 Trigger.connected AKind.rekey (some 0) false none 1 none none none

/-- A plaintext `Inject` action with `wait=True` whose frame carries the
more-fragments flag. -/
def actWait : Action :=
  Action.init 20 Trigger.connected AKind.inject none false
    (some { dot11Default with FCfield := 4 }) 1 none (some true) none

/-- A plaintext `Inject` action on the same trigger as `actWait`. -/
def actNext : Action :=
  Action.init 21 Trigger.connected AKind.inject none false (some dot11Default)
    1 none none none

/-- A generated two-action test: a waiting inject followed by another
inject on the same trigger. -/
def tWait : Test :=
  { actions := [actWait, actNext], generated := true, delay := none,
    incPn := none, prep := Prep.eapol, genCount := 1 }

/-- A station running `tWait` with the ath9k_htc workaround enabled. -/
def stWait : Station :=
  { stBase with test := some tWait, options := { injectWorkaround := true } }

/-- `stWait` with the injection workaround turned off. -/
def stWaitNoWa : Station := { stWait with options := { injectWorkaround := false } }

deriving instance DecidableEq for Except

/-- Ghost measure for claim C2: the generation count plus one pending
generation while `generated` is still false.  `next_action` preserves it. -/
def genMeasure (t : Test) : Nat :=
  t.genCount + (if t.generated = true then 0 else 1)

/-- The allocation invariant tying a test queue to the station's ghost
object-identity counter: all queued actions are distinct objects allocated
before the current counter value. -/
def queueOk (t : Test) (st : Station) : Prop :=
  (idsOf t.actions).Nodup ∧ ∀ a ∈ t.actions, a.id < st.supply

/-! ## Helper lemmas -/

theorem mem_idsOf (i : Nat) (l : List Action) :
    i ∈ idsOf l ↔ ∃ a, a ∈ l ∧ a.id = i :=
  List.mem_map

theorem idsOf_setFrameAt : ∀ (l : List Action) (i : Nat) (fr : Frame),
    idsOf (setFrameAt l i fr) = idsOf l
  | [], _, _ => rfl
  | _ :: _, 0, _ => rfl
  | a :: rest, Nat.succ j, fr => by
    show a.id :: idsOf (setFrameAt rest j fr) = a.id :: idsOf rest
    rw [idsOf_setFrameAt rest j fr]

theorem idsOf_assignFrames (b : Bool) : ∀ (l : List Action) (fs : List Frame),
    idsOf (assignFrames b l fs) = idsOf l := by
  intro l
  induction l with
  | nil => intro fs; rfl
  | cons a rest ih =>
    intro fs
    unfold assignFrames
    split
    · cases fs with
      | nil =>
        show a.id :: idsOf (assignFrames b rest []) = a.id :: idsOf rest
        rw [ih]
      | cons f fs' =>
        show a.id :: idsOf (assignFrames b rest fs') = a.id :: idsOf rest
        rw [ih]
    · show a.id :: idsOf (assignFrames b rest fs) = a.id :: idsOf rest
      rw [ih]

theorem idsOf_setInjectsAfterFirst (f : Action → Action)
    (hf : ∀ a, (f a).id = a.id) :
    ∀ l, idsOf (setInjectsAfterFirst f l) = idsOf l := by
  intro l
  induction l with
  | nil => rfl
  | cons a rest ih =>
    unfold setInjectsAfterFirst
    split
    · show a.id :: idsOf (rest.map fun b => if b.action = AKind.inject then f b else b)
        = a.id :: idsOf rest
      congr 1
      unfold idsOf
      rw [List.map_map]
      apply List.map_congr_left
      intro b _
      by_cases hb : b.action = AKind.inject
      · simp only [Function.comp_apply, if_pos hb]
        exact hf b
      · simp only [Function.comp_apply, if_neg hb]
    · show a.id :: idsOf (setInjectsAfterFirst f rest) = a.id :: idsOf rest
      rw [ih]

theorem idsOf_enforceDelay (d : Option Int) (l : List Action) :
    idsOf (enforceDelay d l) = idsOf l := by
  cases d with
  | none => rfl
  | some v =>
    unfold enforceDelay
    dsimp only
    by_cases hv : v ≤ 0
    · rw [if_pos hv]
    · rw [if_neg hv]
      exact idsOf_setInjectsAfterFirst (fun a => { a with delay := some v })
        (fun a => rfl) l

theorem idsOf_enforceIncPn (v : Option Int) (l : List Action) :
    idsOf (enforceIncPn v l) = idsOf l := by
  cases v with
  | none => rfl
  | some w =>
    unfold enforceIncPn
    dsimp only
    exact idsOf_setInjectsAfterFirst (fun a => { a with incPn := w })
      (fun a => rfl) l

theorem idsProp_transfer (l l' : List Action) (h : idsOf l' = idsOf l)
    (P : Nat → Prop) (hP : ∀ a ∈ l, P a.id) : ∀ a ∈ l', P a.id := by
  intro a ha
  have hmem : a.id ∈ idsOf l := by
    rw [← h]
    exact List.mem_map_of_mem Action.id ha
  obtain ⟨b, hb, hba⟩ := (mem_idsOf a.id l).mp hmem
  exact hba ▸ hP b hb

theorem sepInsert_spec (sepF : Frame) :
    ∀ (l : List Action) (st : Station),
      st.supply ≤ (sepInsert sepF st l).2.supply ∧
      ((idsOf l).Nodup → (∀ a ∈ l, a.id < st.supply) →
        ((idsOf (sepInsert sepF st l).1).Nodup ∧
         (∀ a ∈ (sepInsert sepF st l).1, a.id < (sepInsert sepF st l).2.supply) ∧
         (∀ a ∈ (sepInsert sepF st l).1, a.id ∈ idsOf l ∨ st.supply ≤ a.id))) := by
  intro l
  induction l with
  | nil =>
    intro st
    exact ⟨Nat.le_refl _, fun _ _ => ⟨List.nodup_nil, by simp [sepInsert], by simp [sepInsert]⟩⟩
  | cons a tl ih =>
    intro st
    cases tl with
    | nil =>
      refine ⟨Nat.le_refl _, fun hnd hbd => ⟨hnd, ?_, ?_⟩⟩
      · intro x hx
        exact hbd x hx
      · intro x hx
        exact Or.inl (List.mem_map_of_mem Action.id hx)
    | cons b rest =>
      by_cases hinj : a.action = AKind.inject
      · have hstep : sepInsert sepF st (a :: b :: rest) =
            (a :: { Action.init st.supply a.trigger AKind.inject none
                      a.encrypted none 1 none none none with
                    frame := some (setHeader st sepF none) } ::
               (sepInsert sepF { st with supply := st.supply + 1 } (b :: rest)).1,
             (sepInsert sepF { st with supply := st.supply + 1 } (b :: rest)).2) := by
          rw [sepInsert, if_pos hinj]
        have IH := ih { st with supply := st.supply + 1 }
        rcases hR : sepInsert sepF { st with supply := st.supply + 1 } (b :: rest)
          with ⟨tl', st'⟩
        rw [hR] at hstep IH
        dsimp only at IH
        rw [hstep]
        dsimp only
        have hsup : st.supply + 1 ≤ st'.supply := IH.1
        refine ⟨by omega, fun hnd hbd => ?_⟩
        have hndTl : (idsOf (b :: rest)).Nodup := (List.nodup_cons.mp hnd).2
        have hbdTl : ∀ x ∈ b :: rest, x.id < st.supply + 1 := by
          intro x hx
          have := hbd x (List.mem_cons_of_mem a hx)
          omega
        obtain ⟨ndTl', bdTl', memTl'⟩ := IH.2 hndTl hbdTl
        have haHead : a.id ∉ idsOf (b :: rest) := by
          intro hmem
          exact (List.nodup_cons.mp hnd).1 hmem
        have haLt : a.id < st.supply := hbd a (List.mem_cons_self a _)
        refine ⟨?_, ?_, ?_⟩
        · show (a.id :: st.supply :: idsOf tl').Nodup
          refine List.nodup_cons.mpr ⟨?_, List.nodup_cons.mpr ⟨?_, ndTl'⟩⟩
          · intro hmem
            rcases List.mem_cons.mp hmem with heq | hmem'
            · omega
            · obtain ⟨x, hx, hxa⟩ := (mem_idsOf a.id tl').mp hmem'
              rcases memTl' x hx with hin | hge
              · exact haHead (hxa ▸ hin)
              · omega
          · intro hmem
            obtain ⟨x, hx, hxa⟩ := (mem_idsOf st.supply tl').mp hmem
            rcases memTl' x hx with hin | hge
            · obtain ⟨y, hy, hya⟩ := (mem_idsOf x.id (b :: rest)).mp hin
              have := hbd y (List.mem_cons_of_mem a hy)
              omega
            · omega
        · intro x hx
          rcases List.mem_cons.mp hx with rfl | hx'
          · omega
          · rcases List.mem_cons.mp hx' with rfl | hx''
            · show st.supply < st'.supply
              omega
            · exact bdTl' x hx''
        · intro x hx
          rcases List.mem_cons.mp hx with rfl | hx'
          · exact Or.inl (List.mem_map_of_mem Action.id (List.mem_cons_self _ _))
          · rcases List.mem_cons.mp hx' with rfl | hx''
            · exact Or.inr (Nat.le_refl _)
            · rcases memTl' x hx'' with hin | hge
              · refine Or.inl ?_
                obtain ⟨y, hy, hya⟩ := (mem_idsOf x.id (b :: rest)).mp hin
                exact (mem_idsOf x.id _).mpr ⟨y, List.mem_cons_of_mem a hy, hya⟩
              · exact Or.inr (by omega)
      · have hstep : sepInsert sepF st (a :: b :: rest) =
            (a :: (sepInsert sepF st (b :: rest)).1,
             (sepInsert sepF st (b :: rest)).2) := by
          rw [sepInsert, if_neg hinj]
        have IH := ih st
        rcases hR : sepInsert sepF st (b :: rest) with ⟨tl', st'⟩
        rw [hR] at hstep IH
        dsimp only at IH
        rw [hstep]
        dsimp only
        refine ⟨IH.1, fun hnd hbd => ?_⟩
        have hndTl : (idsOf (b :: rest)).Nodup := (List.nodup_cons.mp hnd).2
        have hbdTl : ∀ x ∈ b :: rest, x.id < st.supply :=
          fun x hx => hbd x (List.mem_cons_of_mem a hx)
        obtain ⟨ndTl', bdTl', memTl'⟩ := IH.2 hndTl hbdTl
        have haHead : a.id ∉ idsOf (b :: rest) := (List.nodup_cons.mp hnd).1
        have haLt : a.id < st.supply := hbd a (List.mem_cons_self a _)
        refine ⟨?_, ?_, ?_⟩
        · show (a.id :: idsOf tl').Nodup
          refine List.nodup_cons.mpr ⟨?_, ndTl'⟩
          intro hmem
          obtain ⟨x, hx, hxa⟩ := (mem_idsOf a.id tl').mp hmem
          rcases memTl' x hx with hin | hge
          · exact haHead (hxa ▸ hin)
          · omega
        · intro x hx
          rcases List.mem_cons.mp hx with rfl | hx'
          · show x.id < st'.supply
            omega
          · exact bdTl' x hx'
        · intro x hx
          rcases List.mem_cons.mp hx with rfl | hx'
          · exact Or.inl (List.mem_map_of_mem Action.id (List.mem_cons_self _ _))
          · rcases memTl' x hx' with hin | hge
            · refine Or.inl ?_
              obtain ⟨y, hy, hya⟩ := (mem_idsOf x.id (b :: rest)).mp hin
              exact (mem_idsOf x.id _).mpr ⟨y, List.mem_cons_of_mem a hy, hya⟩
            · exact Or.inr hge

theorem encrypt_shape (e : Ext) (st : Station) (f : Frame) (incPn : Int)
    (fk : Option Nat) (encd : Frame) (st' : Station)
    (h : encrypt e st f incPn fk = some (encd, st')) :
    st' = { st with pn := st.pn + incPn } := by
  unfold encrypt at h
  rcases hf : f.addr1 with _ | a1 <;> rw [hf] at h
  · exact absurd h (by simp)
  · dsimp only at h
    by_cases hc : (a1.headD 0) &&& 1 = 0
    · rw [if_pos hc] at h
      rcases htk : st.tk with _ | key <;> rw [htk] at h
      · simp at h
      · simp only [Option.some.injEq, Prod.mk.injEq] at h
        exact h.2.symm
    · rw [if_neg hc] at h
      rcases hg : st.gtk with _ | key <;> rw [hg] at h
      · simp at h
      · simp only [Option.some.injEq, Prod.mk.injEq] at h
        exact h.2.symm

theorem prep_ids_case (acts acts' : List Action) (sup : Nat)
    (hids : idsOf acts' = idsOf acts)
    (hnd : (idsOf acts).Nodup) (hbd : ∀ a ∈ acts, a.id < sup) :
    ((idsOf acts').Nodup ∧ (∀ a ∈ acts', a.id < sup) ∧
     (∀ a ∈ acts', a.id ∈ idsOf acts ∨ sup ≤ a.id)) := by
  refine ⟨hids ▸ hnd, ?_, ?_⟩
  · exact idsProp_transfer acts acts' hids (fun i => i < sup) hbd
  · intro a ha
    refine Or.inl ?_
    rw [← hids]
    exact List.mem_map_of_mem Action.id ha

theorem prepAct_spec (p : Prep) (e : Ext) (st : Station) (acts : List Action) :
    st.supply ≤ (prepAct p e st acts).2.supply ∧
    ((idsOf acts).Nodup → (∀ a ∈ acts, a.id < st.supply) →
      ((idsOf (prepAct p e st acts).1).Nodup ∧
       (∀ a ∈ (prepAct p e st acts).1, a.id < (prepAct p e st acts).2.supply) ∧
       (∀ a ∈ (prepAct p e st acts).1, a.id ∈ idsOf acts ∨ st.supply ≤ a.id))) := by
  cases p with
  | ping pt bc sw am =>
    cases sw with
    | none =>
      have hids : idsOf (prepAct (Prep.ping pt bc none am) e st acts).1 = idsOf acts := by
        show idsOf (assignFrames bc acts _) = idsOf acts
        rw [idsOf_assignFrames]
      exact ⟨Nat.le_refl _, fun hnd hbd => prep_ids_case acts _ st.supply hids hnd hbd⟩
    | some sepF =>
      rcases hF : pingFrames pt am e st
          ((acts.filter (fun a => a.action = AKind.inject)).length) with ⟨F, stG⟩
      have hstep : prepAct (Prep.ping pt bc (some sepF) am) e st acts =
          sepInsert sepF stG (assignFrames bc acts F) := by
        show pingPrepare pt bc (some sepF) am e st acts = _
        unfold pingPrepare
        rw [hF]
      have hsupG : stG.supply = st.supply := by
        have hc := congrArg (fun p => p.2.supply) hF
        exact hc.symm.trans
          (rfl : (pingFrames pt am e st
            ((acts.filter (fun a => a.action = AKind.inject)).length)).2.supply
              = st.supply)
      have hids : idsOf (assignFrames bc acts F) = idsOf acts :=
        idsOf_assignFrames bc acts F
      have hS := sepInsert_spec sepF (assignFrames bc acts F) stG
      rw [hstep]
      rw [hsupG] at hS
      refine ⟨hS.1, fun hnd hbd => ?_⟩
      have hnd1 : (idsOf (assignFrames bc acts F)).Nodup := hids ▸ hnd
      have hbd1 : ∀ a ∈ assignFrames bc acts F, a.id < st.supply :=
        idsProp_transfer acts _ hids (fun i => i < st.supply) hbd
      obtain ⟨nd', bd', mem'⟩ := hS.2 hnd1 hbd1
      refine ⟨nd', bd', ?_⟩
      intro a ha
      rcases mem' a ha with hin | hge
      · refine Or.inl ?_
        rw [hids] at hin
        exact hin
      · exact Or.inr hge
  | linux pt =>
    have hids : idsOf (prepAct (Prep.linux pt) e st acts).1 = idsOf acts := by
      show idsOf (setFrameAt (setFrameAt (setFrameAt acts 0 _) 1 _) 2 _) = idsOf acts
      rw [idsOf_setFrameAt, idsOf_setFrameAt, idsOf_setFrameAt]
    exact ⟨Nat.le_refl _, fun hnd hbd => prep_ids_case acts _ st.supply hids hnd hbd⟩
  | macos pt =>
    have hids : idsOf (prepAct (Prep.macos pt) e st acts).1 = idsOf acts := by
      show idsOf (setFrameAt (setFrameAt acts 0 _) 1 _) = idsOf acts
      rw [idsOf_setFrameAt, idsOf_setFrameAt]
    exact ⟨Nat.le_refl _, fun hnd hbd => prep_ids_case acts _ st.supply hids hnd hbd⟩
  | eapol =>
    have hids : idsOf (prepAct Prep.eapol e st acts).1 = idsOf acts := by
      show idsOf (setFrameAt (setFrameAt acts 0 _) 0 _) = idsOf acts
      rw [idsOf_setFrameAt, idsOf_setFrameAt]
    exact ⟨Nat.le_refl _, fun hnd hbd => prep_ids_case acts _ st.supply hids hnd hbd⟩
  | eapolMsdu pt =>
    have hids : idsOf (prepAct (Prep.eapolMsdu pt) e st acts).1 = idsOf acts := by
      show idsOf (setFrameAt (setFrameAt acts 0 _) 1 _) = idsOf acts
      rw [idsOf_setFrameAt, idsOf_setFrameAt]
    exact ⟨Nat.le_refl _, fun hnd hbd => prep_ids_case acts _ st.supply hids hnd hbd⟩

theorem generate_spec (e : Ext) (t : Test) (st : Station) :
    st.supply ≤ (generate e t st).2.supply ∧
    ((idsOf t.actions).Nodup → (∀ a ∈ t.actions, a.id < st.supply) →
      ((idsOf (generate e t st).1.actions).Nodup ∧
       (∀ a ∈ (generate e t st).1.actions, a.id < (generate e t st).2.supply) ∧
       (∀ a ∈ (generate e t st).1.actions,
          a.id ∈ idsOf t.actions ∨ st.supply ≤ a.id))) := by
  have hP := prepAct_spec t.prep e st t.actions
  rcases hR : prepAct t.prep e st t.actions with ⟨acts1, st1⟩
  rw [hR] at hP
  dsimp only at hP
  have hgen : generate e t st =
      ({ t with
           actions := enforceIncPn t.incPn (enforceDelay t.delay acts1),
           genCount := t.genCount + 1 }, st1) := by
    unfold generate
    rw [hR]
  rw [hgen]
  dsimp only
  have hids : idsOf (enforceIncPn t.incPn (enforceDelay t.delay acts1)) = idsOf acts1 := by
    rw [idsOf_enforceIncPn, idsOf_enforceDelay]
  refine ⟨hP.1, fun hnd hbd => ?_⟩
  obtain ⟨nd1, bd1, mem1⟩ := hP.2 hnd hbd
  exact ⟨hids ▸ nd1,
         idsProp_transfer acts1 _ hids (fun i => i < st1.supply) bd1,
         idsProp_transfer acts1 _ hids
           (fun i => i ∈ idsOf t.actions ∨ st.supply ≤ i) mem1⟩

theorem maybeGenerate_spec (e : Ext) (t : Test) (st : Station) :
    st.supply ≤ (maybeGenerate e t st).2.supply ∧
    ((idsOf t.actions).Nodup → (∀ a ∈ t.actions, a.id < st.supply) →
      ((idsOf (maybeGenerate e t st).1.actions).Nodup ∧
       (∀ a ∈ (maybeGenerate e t st).1.actions,
          a.id < (maybeGenerate e t st).2.supply) ∧
       (∀ a ∈ (maybeGenerate e t st).1.actions,
          a.id ∈ idsOf t.actions ∨ st.supply ≤ a.id))) := by
  unfold maybeGenerate
  cases hA : t.actions with
  | nil =>
    refine ⟨Nat.le_refl _, fun hnd hbd => ⟨?_, ?_, ?_⟩⟩
    · rw [hA]; exact hnd
    · rw [hA]; exact hbd
    · rw [hA]; intro a ha; exact Or.inl (List.mem_map_of_mem Action.id ha)
  | cons a0 tl =>
    dsimp only
    by_cases hc : a0.action = AKind.inject ∧ t.generated = false
    · rw [if_pos hc]
      have hG := generate_spec e t st
      rcases hGR : generate e t st with ⟨tG, stG⟩
      rw [hGR] at hG
      dsimp only at hG ⊢
      rw [hA] at hG
      exact hG
    · rw [if_neg hc]
      refine ⟨Nat.le_refl _, fun hnd hbd => ⟨?_, ?_, ?_⟩⟩
      · show (idsOf t.actions).Nodup
        rw [hA]; exact hnd
      · show ∀ a ∈ t.actions, a.id < st.supply
        rw [hA]; exact hbd
      · show ∀ a ∈ t.actions, a.id ∈ idsOf (a0 :: tl) ∨ st.supply ≤ a.id
        rw [hA]; intro a ha; exact Or.inl (List.mem_map_of_mem Action.id ha)

theorem nextAction_spec (e : Ext) (t : Test) (st : Station)
    (hq : queueOk t st) (oa : Option Action) (t' : Test) (st' : Station)
    (hNA : nextAction e t st = (oa, t', st')) :
    queueOk t' st' ∧ st.supply ≤ st'.supply ∧
    (∀ x ∈ t'.actions, x.id ∈ idsOf t.actions ∨ st.supply ≤ x.id) ∧
    (∀ a, oa = some a → ((a.id ∈ idsOf t.actions ∨ st.supply ≤ a.id) ∧
      a.id ∉ idsOf t'.actions ∧ a.id < st'.supply)) := by
  obtain ⟨hnd, hbd⟩ := hq
  unfold nextAction at hNA
  cases hA : t.actions with
  | nil =>
    rw [hA] at hNA
    dsimp only at hNA
    simp only [Prod.mk.injEq] at hNA
    obtain ⟨h1, h2, h3⟩ := hNA
    subst h1; subst h2; subst h3
    refine ⟨⟨hnd, hbd⟩, Nat.le_refl _, ?_, ?_⟩
    · intro x hx
      rw [hA] at hx
      cases hx
    · intro a ha; cases ha
  | cons a0 tl =>
    rw [hA] at hNA
    dsimp only at hNA
    have hM := maybeGenerate_spec e t st
    rcases hMG : maybeGenerate e t st with ⟨t1, st1⟩
    rw [hMG] at hNA hM
    dsimp only at hNA hM
    obtain ⟨hsup, hMspec⟩ := hM
    obtain ⟨nd1, bd1, mem1⟩ := hMspec hnd hbd
    rw [hA] at mem1
    cases hA1 : t1.actions with
    | nil =>
      rw [hA1] at hNA
      dsimp only at hNA
      simp only [Prod.mk.injEq] at hNA
      obtain ⟨h1, h2, h3⟩ := hNA
      subst h1; subst h2; subst h3
      refine ⟨⟨nd1, bd1⟩, hsup, mem1, ?_⟩
      intro a ha; cases ha
    | cons a1 rest =>
      rw [hA1] at hNA
      dsimp only at hNA
      simp only [Prod.mk.injEq] at hNA
      obtain ⟨h1, h2, h3⟩ := hNA
      subst h1; subst h2; subst h3
      rw [hA1] at nd1 bd1 mem1
      have hnd1' := List.nodup_cons.mp nd1
      refine ⟨⟨hnd1'.2, ?_⟩, hsup, ?_, ?_⟩
      · intro x hx
        exact bd1 x (List.mem_cons_of_mem a1 hx)
      · intro x hx
        exact mem1 x (List.mem_cons_of_mem a1 hx)
      · intro a ha
        injection ha with ha
        subst ha
        exact ⟨mem1 a1 (List.mem_cons_self a1 _), hnd1'.1,
               bd1 a1 (List.mem_cons_self a1 _)⟩

theorem runN_spec (e : Ext) :
    ∀ (n : Nat) (t : Test) (st : Station), queueOk t st →
      (idsOf (runN e n t st).1).Nodup ∧
      (∀ x ∈ (runN e n t st).1, x.id ∈ idsOf t.actions ∨ st.supply ≤ x.id) := by
  intro n
  induction n with
  | zero => intro t st _; exact ⟨List.nodup_nil, by simp [runN]⟩
  | succ n ih =>
    intro t st hq
    rcases hNA : nextAction e t st with ⟨oa, t', st'⟩
    have hstep := nextAction_spec e t st hq oa t' st' hNA
    obtain ⟨hq', hsup, hmem, hsome⟩ := hstep
    cases oa with
    | none => simp [runN, hNA, idsOf]
    | some a =>
      obtain ⟨ha_mem, ha_notin, ha_lt⟩ := hsome a rfl
      have hrec := ih t' st' hq'
      simp only [runN, hNA]
      rcases hR : runN e n t' st' with ⟨outs, t'', st''⟩
      rw [hR] at hrec
      dsimp only at hrec ⊢
      constructor
      · show (a.id :: idsOf outs).Nodup
        refine List.nodup_cons.mpr ⟨?_, hrec.1⟩
        intro hmem_a
        obtain ⟨x, hx, hxa⟩ := (mem_idsOf a.id outs).mp hmem_a
        rcases hrec.2 x hx with hin | hge
        · exact ha_notin (hxa ▸ hin)
        · omega
      · intro x hx
        rcases List.mem_cons.mp hx with rfl | hx'
        · exact ha_mem
        · rcases hrec.2 x hx' with hin | hge
          · obtain ⟨y, hy, hya⟩ := (mem_idsOf x.id t'.actions).mp hin
            rcases hmem y hy with hin2 | hge2
            · exact Or.inl (hya ▸ hin2)
            · exact Or.inr (by omega)
          · exact Or.inr (by omega)

theorem encrypt_isSome (e : Ext) (st : Station) (f : Frame) (ipn : Int)
    (fk : Option Nat) (a1 : Mac) (tkv gkv : List Nat)
    (h1 : f.addr1 = some a1) (ht : st.tk = some tkv) (hg : st.gtk = some gkv) :
    ∃ encd, encrypt e st f ipn fk = some (encd, { st with pn := st.pn + ipn }) := by
  unfold encrypt
  rw [h1]
  dsimp only
  by_cases hc : (a1.headD 0) &&& 1 = 0
  · rw [if_pos hc, ht]
    exact ⟨_, rfl⟩
  · rw [if_neg hc, hg]
    exact ⟨_, rfl⟩

theorem nextAction_of_generated (e : Ext) (t : Test) (st : Station)
    (a : Action) (rest : List Action)
    (hg : t.generated = true) (ha : t.actions = a :: rest) :
    nextAction e t st = (some a, { t with actions := rest }, st) := by
  unfold nextAction maybeGenerate
  rw [ha]
  dsimp only
  rw [if_neg (by simp [hg])]
  dsimp only
  rw [ha]

theorem nextAction_gen_inject (e : Ext) (t : Test) (st : Station)
    (a0 : Action) (tl : List Action)
    (hacts : t.actions = a0 :: tl) (ha0 : a0.action = AKind.inject)
    (hgen : t.generated = false) :
    (nextAction e t st).2.1.generated = true ∧
    (nextAction e t st).2.1.genCount = t.genCount + 1 := by
  unfold nextAction maybeGenerate generate
  rw [hacts]
  dsimp only
  rw [if_pos ⟨ha0, hgen⟩]
  dsimp only
  cases hA : enforceIncPn t.incPn (enforceDelay t.delay (prepAct t.prep e st (a0 :: tl)).1) with
  | nil => exact ⟨rfl, rfl⟩
  | cons a rest => exact ⟨rfl, rfl⟩

theorem nextAction_gen_of_generated (e : Ext) (t : Test) (st : Station)
    (hgen : t.generated = true) :
    (nextAction e t st).2.1.generated = true ∧
    (nextAction e t st).2.1.genCount = t.genCount := by
  cases hA : t.actions with
  | nil => simp [nextAction, hA, hgen]
  | cons a rest =>
    rw [nextAction_of_generated e t st a rest hgen hA]
    exact ⟨hgen, rfl⟩

theorem nextAction_gen_not_inject (e : Ext) (t : Test) (st : Station)
    (hni : ∀ a0 tl, t.actions = a0 :: tl → a0.action ≠ AKind.inject) :
    (nextAction e t st).2.1.generated = t.generated ∧
    (nextAction e t st).2.1.genCount = t.genCount := by
  cases hA : t.actions with
  | nil => simp [nextAction, hA]
  | cons a rest =>
    unfold nextAction maybeGenerate
    rw [hA]
    dsimp only
    rw [if_neg (fun hc => hni a rest hA hc.1)]
    dsimp only
    rw [hA]
    exact ⟨rfl, rfl⟩

theorem nextAction_genMeasure (e : Ext) (t : Test) (st : Station) :
    genMeasure (nextAction e t st).2.1 = genMeasure t := by
  cases hA : t.actions with
  | nil => simp [nextAction, hA]
  | cons a0 tl =>
    by_cases hc : a0.action = AKind.inject ∧ t.generated = false
    · have h := nextAction_gen_inject e t st a0 tl hA hc.1 hc.2
      unfold genMeasure
      rw [h.1, h.2, hc.2]
      simp
    · unfold nextAction maybeGenerate
      rw [hA]
      dsimp only
      rw [if_neg hc]
      dsimp only
      rw [hA]
      rfl

theorem runN_genMeasure (e : Ext) (n : Nat) (t : Test) (st : Station) :
    genMeasure (runN e n t st).2.1 = genMeasure t := by
  induction n generalizing t st with
  | zero => rfl
  | succ n ih =>
    have hm := nextAction_genMeasure e t st
    rcases hNA : nextAction e t st with ⟨oa, t', st'⟩
    rw [hNA] at hm
    cases oa with
    | none => simpa [runN, hNA] using hm
    | some a =>
      have := ih t' st'
      simp only [runN, hNA]
      rcases hR : runN e n t' st' with ⟨outs, t'', st''⟩
      rw [hR] at this
      simpa [this] using hm

theorem execAct_preserves (e : Ext) (st : Station) (lastF : Option Frame)
    (res : Option Nat) (act : Action) (st2 : Station) (lastF2 : Option Frame)
    (res2 : Option Nat) (effs2 : List Effect) (brk : Bool)
    (h : execAct e st lastF res act = Except.ok (st2, lastF2, res2, effs2, brk)) :
    st2.test = st.test ∧ st2.options = st.options := by
  unfold execAct at h
  cases hk : act.action <;> rw [hk] at h <;> dsimp only at h
  case getIp =>
    split at h <;>
      (simp only [Except.ok.injEq, Prod.mk.injEq] at h
       obtain ⟨h1, -⟩ := h
       subst h1
       exact ⟨rfl, rfl⟩)
  case func =>
    cases hf : act.func <;> rw [hf] at h
    · exact absurd h (by simp)
    · simp only [Except.ok.injEq, Prod.mk.injEq] at h
      obtain ⟨h1, -⟩ := h
      subst h1
      exact ⟨rfl, rfl⟩
  case rekey =>
    simp only [Except.ok.injEq, Prod.mk.injEq] at h
    obtain ⟨h1, -⟩ := h
    subst h1
    exact ⟨rfl, rfl⟩
  case roam =>
    simp only [Except.ok.injEq, Prod.mk.injEq] at h
    obtain ⟨h1, -⟩ := h
    subst h1
    exact ⟨rfl, rfl⟩
  case reconnect =>
    simp only [Except.ok.injEq, Prod.mk.injEq] at h
    obtain ⟨h1, -⟩ := h
    subst h1
    exact ⟨rfl, rfl⟩
  case inject =>
    split at h
    · split at h
      · exact absurd h (by simp)
      · cases hf : act.frame <;> rw [hf] at h
        · exact absurd h (by simp)
        · rename_i f
          dsimp only at h
          cases hE : encrypt e st f act.incPn act.key with
          | none => rw [hE] at h; exact absurd h (by simp)
          | some out =>
            rcases out with ⟨encd, stE⟩
            rw [hE] at h
            simp only [Except.ok.injEq, Prod.mk.injEq] at h
            obtain ⟨h1, -⟩ := h
            subst h1
            have := encrypt_shape e st f act.incPn act.key encd stE hE
            subst this
            exact ⟨rfl, rfl⟩
    · cases hf : act.frame <;> rw [hf] at h
      · exact absurd h (by simp)
      · simp only [Except.ok.injEq, Prod.mk.injEq] at h
        obtain ⟨h1, -⟩ := h
        subst h1
        exact ⟨rfl, rfl⟩

theorem execAct_brk_of_wait (e : Ext) (st : Station) (lastF : Option Frame)
    (res : Option Nat) (act : Action) (st2 : Station) (lastF2 : Option Frame)
    (res2 : Option Nat) (effs2 : List Effect) (brk : Bool)
    (hw : act.wait = true)
    (h : execAct e st lastF res act = Except.ok (st2, lastF2, res2, effs2, brk)) :
    brk = true := by
  unfold execAct at h
  cases hk : act.action <;> rw [hk] at h <;> dsimp only at h
  case getIp =>
    split at h <;>
      (simp only [Except.ok.injEq, Prod.mk.injEq] at h
       obtain ⟨-, -, -, -, h5⟩ := h
       rw [← h5])
    all_goals first
    | rfl
    | exact hw
  case func =>
    cases hf : act.func <;> rw [hf] at h
    · exact absurd h (by simp)
    · simp only [Except.ok.injEq, Prod.mk.injEq] at h
      obtain ⟨-, -, -, -, h5⟩ := h
      rw [← h5]
      exact hw
  case rekey =>
    simp only [Except.ok.injEq, Prod.mk.injEq] at h
    obtain ⟨-, -, -, -, h5⟩ := h
    rw [← h5]
    exact hw
  case roam =>
    simp only [Except.ok.injEq, Prod.mk.injEq] at h
    obtain ⟨-, -, -, -, h5⟩ := h
    rw [← h5]
    exact hw
  case reconnect =>
    simp only [Except.ok.injEq, Prod.mk.injEq] at h
    obtain ⟨-, -, -, -, h5⟩ := h
    rw [← h5]
    exact hw
  case inject =>
    split at h
    · split at h
      · exact absurd h (by simp)
      · cases hf : act.frame <;> rw [hf] at h
        · exact absurd h (by simp)
        · rename_i f
          dsimp only at h
          cases hE : encrypt e st f act.incPn act.key with
          | none => rw [hE] at h; exact absurd h (by simp)
          | some out =>
            rcases out with ⟨encd, stE⟩
            rw [hE] at h
            simp only [Except.ok.injEq, Prod.mk.injEq] at h
            obtain ⟨-, -, -, -, h5⟩ := h
            rw [← h5]
            exact hw
    · cases hf : act.frame <;> rw [hf] at h
      · exact absurd h (by simp)
      · simp only [Except.ok.injEq, Prod.mk.injEq] at h
        obtain ⟨-, -, -, -, h5⟩ := h
        rw [← h5]
        exact hw

theorem execAct_lastF (e : Ext) (st : Station) (lastF : Option Frame)
    (res : Option Nat) (act : Action) (st2 : Station) (lastF2 : Option Frame)
    (res2 : Option Nat) (effs2 : List Effect) (brk : Bool)
    (h : execAct e st lastF res act = Except.ok (st2, lastF2, res2, effs2, brk)) :
    lastF2 = effs2.foldl lastTxUpd lastF := by
  unfold execAct at h
  cases hk : act.action <;> rw [hk] at h <;> dsimp only at h
  case getIp =>
    split at h <;>
      (simp only [Except.ok.injEq, Prod.mk.injEq] at h
       obtain ⟨-, h2, -, h4, -⟩ := h
       subst h4
       exact h2.symm)
  case func =>
    cases hf : act.func <;> rw [hf] at h
    · exact absurd h (by simp)
    · simp only [Except.ok.injEq, Prod.mk.injEq] at h
      obtain ⟨-, h2, -, h4, -⟩ := h
      subst h4
      exact h2.symm
  case rekey =>
    simp only [Except.ok.injEq, Prod.mk.injEq] at h
    obtain ⟨-, h2, -, h4, -⟩ := h
    subst h4
    exact h2.symm
  case roam =>
    simp only [Except.ok.injEq, Prod.mk.injEq] at h
    obtain ⟨-, h2, -, h4, -⟩ := h
    subst h4
    exact h2.symm
  case reconnect =>
    simp only [Except.ok.injEq, Prod.mk.injEq] at h
    obtain ⟨-, h2, -, h4, -⟩ := h
    subst h4
    exact h2.symm
  case inject =>
    have hfold : ∀ (acc : Option Frame) (f : Frame),
        (delayEffs act ++ [Effect.tx f]).foldl lastTxUpd acc = some f := by
      intro acc f
      rw [List.foldl_append]
      unfold delayEffs
      cases hd : act.delay
      · rfl
      · split <;> rfl
    split at h
    · split at h
      · exact absurd h (by simp)
      · cases hf : act.frame <;> rw [hf] at h
        · exact absurd h (by simp)
        · rename_i f
          dsimp only at h
          cases hE : encrypt e st f act.incPn act.key with
          | none => rw [hE] at h; exact absurd h (by simp)
          | some out =>
            rcases out with ⟨encd, stE⟩
            rw [hE] at h
            simp only [Except.ok.injEq, Prod.mk.injEq] at h
            obtain ⟨-, h2, -, h4, -⟩ := h
            subst h4
            rw [hfold]
            exact h2.symm
    · cases hf : act.frame <;> rw [hf] at h
      · exact absurd h (by simp)
      · rename_i f
        simp only [Except.ok.injEq, Prod.mk.injEq] at h
        obtain ⟨-, h2, -, h4, -⟩ := h
        subst h4
        rw [hfold]
        exact h2.symm

theorem paLoop_drop (e : Ext) (trig : Trigger) :
    ∀ (fuel : Nat) (st : Station) (lastF : Option Frame) (res : Option Nat)
      (effs : List Effect) (st' : Station) (lastF' : Option Frame)
      (res' : Option Nat) (effs' : List Effect),
      paLoop e trig fuel st lastF res effs = Except.ok (st', lastF', res', effs') →
      ∀ t, st.test = some t → t.generated = true →
      ∃ k, st'.test = some { t with actions := t.actions.drop k } := by
  intro fuel
  induction fuel with
  | zero => intro st lastF res effs st' lastF' res' effs' h; exact absurd h (by simp [paLoop])
  | succ n ih =>
    intro st lastF res effs st' lastF' res' effs' h t hT hG
    unfold paLoop at h
    rw [hT] at h
    dsimp only at h
    split at h
    · rcases hA : t.actions with _ | ⟨a, rest⟩
      · rename_i hguard
        rw [nextTriggerIs, hA] at hguard
        exact absurd hguard (by simp)
      · rw [nextAction_of_generated e t st a rest hG hA] at h
        dsimp only at h
        cases hX : execAct e { st with test := some { t with actions := rest } }
            lastF res a with
        | error u => rw [hX] at h; exact absurd h (by simp)
        | ok out =>
          rcases out with ⟨st2, lastF2, res2, effs2, brk⟩
          rw [hX] at h
          dsimp only at h
          have hpres := execAct_preserves e _ lastF res a st2 lastF2 res2 effs2 brk hX
          cases brk with
          | true =>
            rw [if_pos rfl] at h
            simp only [Except.ok.injEq, Prod.mk.injEq] at h
            obtain ⟨h1, -⟩ := h
            refine ⟨1, ?_⟩
            rw [← h1]
            exact hpres.1
          | false =>
            rw [if_neg (by simp)] at h
            have ht2 : st2.test = some { t with actions := rest } := hpres.1
            obtain ⟨k, hk⟩ := ih st2 lastF2 res2 (effs ++ effs2) st' lastF' res' effs' h
              { t with actions := rest } ht2 hG
            refine ⟨k + 1, ?_⟩
            rw [hk]
            rfl
    · simp only [Except.ok.injEq, Prod.mk.injEq] at h
      obtain ⟨h1, -⟩ := h
      refine ⟨0, ?_⟩
      rw [← h1, hT, List.drop_zero]

theorem paLoop_lastTx (e : Ext) (trig : Trigger) :
    ∀ (fuel : Nat) (st : Station) (lastF : Option Frame) (res : Option Nat)
      (effs : List Effect) (st' : Station) (lastF' : Option Frame)
      (res' : Option Nat) (effs' : List Effect),
      paLoop e trig fuel st lastF res effs = Except.ok (st', lastF', res', effs') →
      lastF = effs.foldl lastTxUpd none →
      lastF' = effs'.foldl lastTxUpd none := by
  intro fuel
  induction fuel with
  | zero =>
    intro st lastF res effs st' lastF' res' effs' h
    exact absurd h (by simp [paLoop])
  | succ n ih =>
    intro st lastF res effs st' lastF' res' effs' h hinv
    unfold paLoop at h
    cases hT : st.test with
    | none =>
      rw [hT] at h
      simp only [Except.ok.injEq, Prod.mk.injEq] at h
      obtain ⟨-, h2, -, h4⟩ := h
      rw [← h2, ← h4]
      exact hinv
    | some t =>
      rw [hT] at h
      dsimp only at h
      split at h
      · rcases hNA : nextAction e t st with ⟨oact, t', stN⟩
        rw [hNA] at h
        dsimp only at h
        cases oact with
        | none =>
          simp only [Except.ok.injEq, Prod.mk.injEq] at h
          obtain ⟨-, h2, -, h4⟩ := h
          rw [← h2, ← h4]
          exact hinv
        | some act =>
          dsimp only at h
          cases hX : execAct e { stN with test := some t' } lastF res act with
          | error u => rw [hX] at h; exact absurd h (by simp)
          | ok out =>
            rcases out with ⟨st2, lastF2, res2, effs2, brk⟩
            rw [hX] at h
            dsimp only at h
            have hstep : lastF2 = (effs ++ effs2).foldl lastTxUpd none := by
              rw [List.foldl_append, ← hinv]
              exact execAct_lastF e _ lastF res act st2 lastF2 res2 effs2 brk hX
            cases brk with
            | true =>
              rw [if_pos rfl] at h
              simp only [Except.ok.injEq, Prod.mk.injEq] at h
              obtain ⟨-, h2, -, h4⟩ := h
              rw [← h2, ← h4]
              exact hstep
            | false =>
              rw [if_neg (by simp)] at h
              exact ih st2 lastF2 res2 (effs ++ effs2) st' lastF' res' effs' h hstep
      · simp only [Except.ok.injEq, Prod.mk.injEq] at h
        obtain ⟨-, h2, -, h4⟩ := h
        rw [← h2, ← h4]
        exact hinv

theorem performActions_decomp (e : Ext) (fuel : Nat) (st : Station)
    (trig : Trigger) (t : Test) (st' : Station) (effs : List Effect)
    (res : Option Nat) (hT : st.test = some t)
    (h : performActions e fuel st trig = Except.ok (st', effs, res)) :
    ∃ lastF effs0,
      paLoop e trig fuel st none none [] = Except.ok (st', lastF, res, effs0) ∧
      effs = (if st'.options.injectWorkaround && mfSet lastF then
                effs0 ++ [Effect.tx dummyFrame] else effs0) := by
  unfold performActions at h
  rw [hT] at h
  dsimp only at h
  cases hP : paLoop e trig fuel st none none [] with
  | error u => rw [hP] at h; exact absurd h (by simp)
  | ok out =>
    rcases out with ⟨stL, lastF, resL, effsL⟩
    rw [hP] at h
    dsimp only at h
    simp only [Except.ok.injEq, Prod.mk.injEq] at h
    obtain ⟨h1, h2, h3⟩ := h
    subst h1
    subst h3
    exact ⟨lastF, effsL, rfl, h2.symm⟩

/-! ## Claim theorems -/

/-- C10: on a `Test` whose action queue is empty, `next_trigger_is` is false
for every trigger and `next_action` returns `None`, runs no frame
generation, and leaves the `Test` (and the station) unchanged. -/
theorem c10_empty_queue_noop (e : Ext) (t : Test) (st : Station)
    (h : t.actions = []) :
    (∀ trig, nextTriggerIs t trig = false) ∧
    nextAction e t st = (none, t, st) := by
  constructor
  · intro trig; simp [nextTriggerIs, h]
  · simp [nextAction, h]

/-- Witness for C10 at a concrete empty test. -/
theorem c10_empty_queue_noop_witness :
    (Test.base [] Prep.eapol).actions = [] ∧
    ((∀ trig, nextTriggerIs (Test.base [] Prep.eapol) trig = false) ∧
     nextAction extId (Test.base [] Prep.eapol) stBase =
       (none, Test.base [] Prep.eapol, stBase)) :=
  ⟨rfl, c10_empty_queue_noop extId (Test.base [] Prep.eapol) stBase rfl⟩

/-- C7: `perform_actions` is a no-op — same station (hence same test state)
and no effects, in particular no transmission — whenever no test is active
or the trigger does not match the head of the queue. -/
theorem c7_perform_actions_noop (e : Ext) (fuel : Nat) (st : Station)
    (trig : Trigger) :
    (st.test = none → performActions e fuel st trig = Except.ok (st, [], none)) ∧
    (∀ t, st.test = some t → nextTriggerIs t trig = false →
      performActions e (fuel + 1) st trig = Except.ok (st, [], none)) := by
  constructor
  · intro h; simp [performActions, h]
  · intro t h hng
    simp [performActions, h, paLoop, hng, mfSet]

/-- Witness for C7: a station with no test, and a station whose head action
waits on `Connected` while `StartAuth` fires. -/
theorem c7_perform_actions_noop_witness :
    stBase.test = none ∧
    performActions extId 5 stBase Trigger.connected = Except.ok (stBase, [], none) ∧
    performActions extId 5 { stBase with test := some (mkLinuxTest 0 REQ_ICMP) }
        Trigger.startAuth =
      Except.ok ({ stBase with test := some (mkLinuxTest 0 REQ_ICMP) }, [], none) :=
  ⟨rfl,
   (c7_perform_actions_noop extId 5 stBase Trigger.connected).1 rfl,
   (c7_perform_actions_noop extId 4 { stBase with test := some (mkLinuxTest 0 REQ_ICMP) }
       Trigger.startAuth).2 (mkLinuxTest 0 REQ_ICMP) rfl (by decide)⟩

/-- C9: after `LinuxTest.prepare`, the frame of the third action is the
unmodified fragment 2 and the frame of the second action is a copy that is
identical in every field except the sequence-control field, where exactly
bit 4 (value 16) is flipped; the original fragment is not mutated. -/
theorem c9_linux_prepare_bitflip (e : Ext) (st : Station) (idBase pt : Nat) :
    ∃ f2 : Frame,
      frameAt ((prepAct (Prep.linux pt) e st (mkLinuxTest idBase pt).actions).1) 2 =
        some f2 ∧
      frameAt ((prepAct (Prep.linux pt) e st (mkLinuxTest idBase pt).actions).1) 1 =
        some { f2 with SC := f2.SC ^^^ (1 <<< 4) } ∧
      (∀ i, i ≠ 4 → (f2.SC ^^^ (1 <<< 4)).testBit i = f2.SC.testBit i) ∧
      (f2.SC ^^^ (1 <<< 4)).testBit 4 = !f2.SC.testBit 4 := by
  refine ⟨linFrag2 e st pt, ?_, ?_, ?_, ?_⟩
  · rfl
  · rfl
  · intro i hi
    rw [Nat.testBit_xor, Nat.one_shiftLeft, Nat.testBit_two_pow_of_ne (by omega)]
    simp
  · rw [Nat.testBit_xor, Nat.one_shiftLeft]
    rw [show Nat.testBit (2 ^ 4) 4 = true from Nat.testBit_two_pow_self]
    cases (linFrag2 e st pt).SC.testBit 4 <;> rfl

/-- C6: `Station.encrypt` picks the key by the low bit of the first octet of
the destination address — group key `gtk` with index `gtk_idx` for
multicast, pairwise key `tk` with index 0 for unicast — and picks the
cipher by key length: 16 bytes is CCMP, anything else WEP (stated for the
default `force_key=None` path; `force_key=0` only substitutes an all-zero
key of the same length). -/
theorem c6_encrypt_key_cipher_selection (e : Ext) (st : Station) (f : Frame)
    (ipn : Int) (a1 : Mac) (h1 : f.addr1 = some a1) :
    ((a1.headD 0 &&& 1 = 0) → ∀ tkv, st.tk = some tkv →
      encrypt e st f ipn none = some
        ((if tkv.length = 16 then e.encryptCCMP f tkv (st.pn + ipn) (some 0)
          else e.encryptWEP f tkv (st.pn + ipn) (some 0)),
         { st with pn := st.pn + ipn })) ∧
    ((a1.headD 0 &&& 1 = 1) → ∀ gkv, st.gtk = some gkv →
      encrypt e st f ipn none = some
        ((if gkv.length = 16 then e.encryptCCMP f gkv (st.pn + ipn) st.gtkIdx
          else e.encryptWEP f gkv (st.pn + ipn) st.gtkIdx),
         { st with pn := st.pn + ipn })) := by
  constructor
  · intro hm tkv htk
    unfold encrypt
    rw [h1]
    dsimp only
    rw [if_pos hm, htk]
    dsimp only
    rw [if_neg (show ¬((none : Option Nat) = some 0) by simp)]
  · intro hm gkv hgtk
    unfold encrypt
    rw [h1]
    dsimp only
    rw [if_neg (by rw [hm]; exact one_ne_zero), hgtk]
    dsimp only
    rw [if_neg (show ¬((none : Option Nat) = some 0) by simp)]

/-- Witness for C6: with both keys installed, a unicast frame is encrypted
under `tk` with key index 0 and a multicast frame under `gtk` with
`gtk_idx`; both 16-byte keys select CCMP. -/
theorem c6_encrypt_key_cipher_selection_witness :
    encrypt extId stKeys unicastFrame 1 none =
      some (extId.encryptCCMP unicastFrame (List.replicate 16 7) (stKeys.pn + 1) (some 0),
            { stKeys with pn := stKeys.pn + 1 }) ∧
    encrypt extId stKeys mcastFrame 1 none =
      some (extId.encryptCCMP mcastFrame (List.replicate 16 9) (stKeys.pn + 1) (some 1),
            { stKeys with pn := stKeys.pn + 1 }) := by
  constructor
  · have h := (c6_encrypt_key_cipher_selection extId stKeys unicastFrame 1
      [2, 0, 0, 0, 0, 1] rfl).1 (by decide) (List.replicate 16 7) rfl
    rw [h]
    decide
  · have h := (c6_encrypt_key_cipher_selection extId stKeys mcastFrame 1
      [1, 0, 0, 0, 0, 1] rfl).2 (by decide) (List.replicate 16 9) rfl
    rw [h]
    decide

/-- Witness for C9 at the concrete collaborators and base station. -/
theorem c9_linux_prepare_bitflip_witness :
    ∃ f2 : Frame,
      frameAt ((prepAct (Prep.linux REQ_ICMP) extId stBase
        (mkLinuxTest 0 REQ_ICMP).actions).1) 2 = some f2 ∧
      frameAt ((prepAct (Prep.linux REQ_ICMP) extId stBase
        (mkLinuxTest 0 REQ_ICMP).actions).1) 1 =
        some { f2 with SC := f2.SC ^^^ (1 <<< 4) } ∧
      (∀ i, i ≠ 4 → (f2.SC ^^^ (1 <<< 4)).testBit i = f2.SC.testBit i) ∧
      (f2.SC ^^^ (1 <<< 4)).testBit 4 = !f2.SC.testBit 4 :=
  c9_linux_prepare_bitflip extId stBase 0 REQ_ICMP

/-- C5: executing an `Inject` action with `encrypted=True` while the
pairwise or group key is absent fails the assertion — the step aborts with
an error and emits no effect, so no frame is produced or transmitted for
that action, and the abort propagates out of `perform_actions`; with both
keys present the assertion never fires and exactly one (encrypted) frame is
transmitted. -/
theorem c5_encrypted_inject_assertion :
    (∀ (e : Ext) (st : Station) (lastF : Option Frame) (res : Option Nat)
       (act : Action),
       act.action = AKind.inject → act.encrypted = true →
       (st.tk = none ∨ st.gtk = none) →
       execAct e st lastF res act = Except.error ()) ∧
    (∀ (e : Ext) (st : Station) (lastF : Option Frame) (res : Option Nat)
       (act : Action) (tkv gkv : List Nat) (f : Frame) (a1 : Mac),
       act.action = AKind.inject → act.encrypted = true →
       st.tk = some tkv → st.gtk = some gkv → act.frame = some f →
       f.addr1 = some a1 →
       ∃ encd, execAct e st lastF res act =
         Except.ok ({ st with pn := st.pn + act.incPn }, some encd, res,
                    delayEffs act ++ [Effect.tx encd], act.wait)) ∧
    (∀ (e : Ext) (fuel : Nat) (st : Station) (trig : Trigger) (t : Test)
       (act : Action) (rest : List Action),
       st.test = some t → t.generated = true → t.actions = act :: rest →
       act.trigger = trig → act.action = AKind.inject → act.encrypted = true →
       (st.tk = none ∨ st.gtk = none) →
       performActions e fuel st trig = Except.error ()) := by
  refine ⟨?_, ?_, ?_⟩
  · intro e st lastF res act hk henc hmiss
    unfold execAct
    rw [hk]
    dsimp only
    rw [if_pos henc, if_pos hmiss]
  · intro e st lastF res act tkv gkv f a1 hk henc ht hg hf h1
    unfold execAct
    rw [hk]
    dsimp only
    rw [if_pos henc, if_neg (by simp [ht, hg]), hf]
    obtain ⟨encd, hE⟩ := encrypt_isSome e st f act.incPn act.key a1 tkv gkv h1 ht hg
    dsimp only
    rw [hE]
    exact ⟨encd, rfl⟩
  · intro e fuel st trig t act rest hTest hGen hActs hTrig hk henc hmiss
    cases fuel with
    | zero => simp [performActions, hTest, paLoop]
    | succ n =>
      have hguard : nextTriggerIs t trig = true := by
        unfold nextTriggerIs
        rw [hActs]
        simp [hTrig]
      have hna := nextAction_of_generated e t st act rest hGen hActs
      have hexec : execAct e { st with test := some { t with actions := rest } }
          none none act = Except.error () := by
        unfold execAct
        rw [hk]
        dsimp only
        rw [if_pos henc, if_pos (by simpa using hmiss)]
      simp [performActions, hTest, paLoop, hguard, hna, hexec]

/-- Witness for C5: the keyless station aborts on the concrete encrypted
inject (both at the single-step and the `perform_actions` level), while the
keyed station transmits exactly one encrypted frame. -/
theorem c5_encrypted_inject_assertion_witness :
    execAct extId stBase none none actEnc = Except.error () ∧
    (∃ encd, execAct extId stKeys none none actEnc =
       Except.ok ({ stKeys with pn := stKeys.pn + actEnc.incPn }, some encd, none,
                  delayEffs actEnc ++ [Effect.tx encd], actEnc.wait)) ∧
    performActions extId 5 stAbort Trigger.connected = Except.error () := by
  refine ⟨?_, ?_, ?_⟩
  · exact (c5_encrypted_inject_assertion.1 extId stBase none none actEnc rfl rfl
      (Or.inl rfl))
  · exact (c5_encrypted_inject_assertion.2.1 extId stKeys none none actEnc
      (List.replicate 16 7) (List.replicate 16 9) unicastFrame [2, 0, 0, 0, 0, 1]
      rfl rfl rfl rfl rfl rfl)
  · exact (c5_encrypted_inject_assertion.2.2 extId 5 stAbort Trigger.connected
      tAbort actEnc [] rfl rfl rfl rfl rfl rfl (Or.inl rfl))

/-- C4 (amended): every successful `encrypt` call changes `pn` by exactly
`inc_pn` — strictly increasing it whenever `inc_pn` is positive, which is
the default — and key-reset events (`reset_keys`, also as invoked from
`handle_connecting` on a new connection) clear `tk`, `gtk`, `gtk_idx` but
never modify `pn`. -/
theorem c4_pn_persistence (_e : Ext) :
    (∀ (e : Ext) (st : Station) (f : Frame) (ipn : Int) (fk : Option Nat)
       (encd : Frame) (st' : Station),
       encrypt e st f ipn fk = some (encd, st') →
       st'.pn = st.pn + ipn ∧ (0 < ipn → st.pn < st'.pn)) ∧
    (∀ st : Station, (resetKeys st).pn = st.pn ∧ (resetKeys st).tk = none ∧
       (resetKeys st).gtk = none ∧ (resetKeys st).gtkIdx = none) ∧
    (∀ (st : Station) (b : Mac), (handleConnecting st b).pn = st.pn ∧
       (handleConnecting st b).tk = none ∧ (handleConnecting st b).gtk = none ∧
       (handleConnecting st b).gtkIdx = none) := by
  refine ⟨?_, ?_, ?_⟩
  · intro e st f ipn fk encd st' h
    have hs := encrypt_shape e st f ipn fk encd st' h
    subst hs
    exact ⟨rfl, fun hp => by simp; omega⟩
  · intro st
    exact ⟨rfl, rfl, rfl, rfl⟩
  · intro st b
    exact ⟨rfl, rfl, rfl, rfl⟩

/-- Witness for C4's amended theorem at a concrete encrypt call with
`inc_pn = 1` and a concrete key reset. -/
theorem c4_pn_persistence_witness :
    ((encrypt extId stTk unicastFrame 1 none).map (fun r => r.2.pn) =
      some (stTk.pn + 1)) ∧
    (resetKeys stKeys).pn = stKeys.pn ∧ (resetKeys stKeys).tk = none := by
  refine ⟨?_, ((c4_pn_persistence extId).2.1 stKeys).1, ((c4_pn_persistence extId).2.1 stKeys).2.1⟩
  have h := (c4_pn_persistence extId).1 extId stTk unicastFrame 1 none
  have hE : encrypt extId stTk unicastFrame 1 none =
      some (unicastFrame, { stTk with pn := stTk.pn + 1 }) := by decide
  rw [hE]
  simp [(h unicastFrame { stTk with pn := stTk.pn + 1 } hE).1]

/-- C4 counterexample: the claim that *every* `encrypt` call strictly
increases `pn` fails for `inc_pn = 0` (reachable via the `--inc_pn`
command-line override applied by `enforce_inc_pn`): this concrete call
succeeds yet leaves `pn` unchanged. -/
theorem c4_pn_strict_counterexample :
    (encrypt extId stTk unicastFrame 0 none).isSome = true ∧
    (encrypt extId stTk unicastFrame 0 none).map (fun r => r.2.pn) =
      some stTk.pn := by
  constructor <;> decide

/-- C1: `next_action` always returns the head of the queue as it stands at
that call (after the in-call generation phase), leaving exactly the tail
queued — so successive calls follow the queue order of the moment — and,
for any queue of distinct `Action` objects (ghost ids below the station's
allocation counter, with separator actions allocated fresh), no object is
ever returned twice over any number of calls. -/
theorem c1_next_action_order_once (e : Ext) (t : Test) (st : Station)
    (n : Nat) (hnd : (idsOf t.actions).Nodup)
    (hbd : ∀ a ∈ t.actions, a.id < st.supply) :
    (idsOf (runN e n t st).1).Nodup ∧
    (∀ a t' st', nextAction e t st = (some a, t', st') →
      (maybeGenerate e t st).1.actions = a :: t'.actions) := by
  constructor
  · exact (runN_spec e n t st ⟨hnd, hbd⟩).1
  · intro a t' st' hNA
    unfold nextAction at hNA
    cases hA : t.actions with
    | nil =>
      rw [hA] at hNA
      exact absurd hNA (by simp)
    | cons a0 tl =>
      rw [hA] at hNA
      dsimp only at hNA
      rcases hMG : maybeGenerate e t st with ⟨t1, st1⟩
      rw [hMG] at hNA
      dsimp only at hNA ⊢
      cases hA1 : t1.actions with
      | nil =>
        rw [hA1] at hNA
        exact absurd hNA (by simp)
      | cons a1 rest =>
        rw [hA1] at hNA
        dsimp only at hNA
        simp only [Prod.mk.injEq] at hNA
        obtain ⟨h1, h2, -⟩ := hNA
        injection h1 with h1
        subst h1
        rw [← h2]

/-- Witness for C1: driving a fresh `LinuxTest` (three distinct actions)
through five `next_action` calls returns ids `[0, 1, 2]` — in queue order,
each exactly once. -/
theorem c1_next_action_order_once_witness :
    ((idsOf (mkLinuxTest 0 REQ_ICMP).actions).Nodup ∧
     (∀ a ∈ (mkLinuxTest 0 REQ_ICMP).actions, a.id < stBase.supply)) ∧
    (idsOf (runN extId 5 (mkLinuxTest 0 REQ_ICMP) stBase).1).Nodup ∧
    idsOf (runN extId 5 (mkLinuxTest 0 REQ_ICMP) stBase).1 = [0, 1, 2] := by
  refine ⟨⟨by decide, by decide⟩, ?_, by decide⟩
  exact (c1_next_action_order_once extId (mkLinuxTest 0 REQ_ICMP) stBase 5
    (by decide) (by decide)).1

/-- C2: frame generation runs exactly once per test, lazily.  No subclass
constructor runs it (`generated=false`, ghost count 0 at construction); a
`next_action` call generates precisely when the head is an `Inject` and
`generated` is still false (setting `generated` and bumping the ghost count
by one); once `generated` is true, or while the head is not an `Inject`, it
never runs; and over any number of `next_action` calls from a fresh test it
runs at most once. -/
theorem c2_generate_exactly_once :
    (∀ idBase ptype : Nat, (mkLinuxTest idBase ptype).generated = false ∧
       (mkLinuxTest idBase ptype).genCount = 0) ∧
    (∀ (ptype : Nat) (fragments : List Action) (b : Bool) (sw : Option Frame)
       (am : Bool), (mkPingTest ptype fragments b sw am).generated = false ∧
       (mkPingTest ptype fragments b sw am).genCount = 0) ∧
    (∀ (ptype : Nat) (acts : List Action),
       (mkMacosTest ptype acts).generated = false ∧
       (mkMacosTest ptype acts).genCount = 0) ∧
    (∀ idBase : Nat, (mkEapolTest idBase).generated = false ∧
       (mkEapolTest idBase).genCount = 0) ∧
    (∀ (ptype : Nat) (acts : List Action),
       (mkEapolMsduTest ptype acts).generated = false ∧
       (mkEapolMsduTest ptype acts).genCount = 0) ∧
    (∀ (e : Ext) (t : Test) (st : Station) (a0 : Action) (tl : List Action),
       t.actions = a0 :: tl → a0.action = AKind.inject → t.generated = false →
       (nextAction e t st).2.1.generated = true ∧
       (nextAction e t st).2.1.genCount = t.genCount + 1) ∧
    (∀ (e : Ext) (t : Test) (st : Station), t.generated = true →
       (nextAction e t st).2.1.generated = true ∧
       (nextAction e t st).2.1.genCount = t.genCount) ∧
    (∀ (e : Ext) (t : Test) (st : Station),
       (∀ a0 tl, t.actions = a0 :: tl → a0.action ≠ AKind.inject) →
       (nextAction e t st).2.1.generated = t.generated ∧
       (nextAction e t st).2.1.genCount = t.genCount) ∧
    (∀ (e : Ext) (n : Nat) (t : Test) (st : Station),
       t.generated = false → t.genCount = 0 →
       (runN e n t st).2.1.genCount ≤ 1) :=
  ⟨fun _ _ => ⟨rfl, rfl⟩,
   fun _ _ _ _ _ => ⟨rfl, rfl⟩,
   fun _ _ => ⟨rfl, rfl⟩,
   fun _ => ⟨rfl, rfl⟩,
   fun _ _ => ⟨rfl, rfl⟩,
   fun e t st a0 tl h1 h2 h3 => nextAction_gen_inject e t st a0 tl h1 h2 h3,
   fun e t st h => nextAction_gen_of_generated e t st h,
   fun e t st h => nextAction_gen_not_inject e t st h,
   fun e n t st hg hc => by
     have hm := runN_genMeasure e n t st
     unfold genMeasure at hm
     rw [hg, hc] at hm
     simp at hm
     omega⟩

/-- Witness for C2: a fresh `LinuxTest` driven through five `next_action`
calls generates exactly once. -/
theorem c2_generate_exactly_once_witness :
    ((mkLinuxTest 0 REQ_ICMP).generated = false ∧
     (mkLinuxTest 0 REQ_ICMP).genCount = 0) ∧
    (nextAction extId (mkLinuxTest 0 REQ_ICMP) stBase).2.1.generated = true ∧
    (nextAction extId (mkLinuxTest 0 REQ_ICMP) stBase).2.1.genCount = 1 ∧
    (runN extId 5 (mkLinuxTest 0 REQ_ICMP) stBase).2.1.genCount ≤ 1 :=
  have h6 := c2_generate_exactly_once.2.2.2.2.2.1 extId (mkLinuxTest 0 REQ_ICMP) stBase
    (Action.init 0 Trigger.connected AKind.inject none true none 1 none none none)
    ((mkLinuxTest 0 REQ_ICMP).actions.tail) rfl rfl rfl
  ⟨c2_generate_exactly_once.1 0 REQ_ICMP, h6.1, h6.2,
   c2_generate_exactly_once.2.2.2.2.2.2.2.2 extId 5 (mkLinuxTest 0 REQ_ICMP) stBase rfl rfl⟩

/-- C3 (amended): actions are drained strictly in queue order (a completed
`perform_actions` call leaves some suffix `drop k` of the queue), an action
with `wait=true` stops the drain even when the next head shares the same
trigger, and — amended — the `wait` default is computed from the `action`
*argument* of `Action.__init__` (true exactly for Rekey/Reconnect/Roam);
when no `func` is supplied this argument is also the resulting kind, but a
supplied `func` overrides the kind to `Func` while the default still
follows the argument. -/
theorem c3_wait_semantics :
    (∀ (id : Nat) (trig : Trigger) (akind : AKind) (fn : Option Nat)
       (enc : Bool) (fr : Option Frame) (ipn : Int) (dl : Option Int)
       (k : Option Nat),
       (Action.init id trig akind fn enc fr ipn dl none k).wait =
         decide (akind = AKind.rekey ∨ akind = AKind.reconnect ∨
                 akind = AKind.roam) ∧
       (fn = none → (Action.init id trig akind fn enc fr ipn dl none k).action = akind)) ∧
    (∀ (e : Ext) (trig : Trigger) (fuel : Nat) (st : Station) (t : Test)
       (st' : Station) (effs : List Effect) (res : Option Nat),
       st.test = some t → t.generated = true →
       performActions e fuel st trig = Except.ok (st', effs, res) →
       ∃ k, st'.test = some { t with actions := t.actions.drop k }) ∧
    (∀ (e : Ext) (trig : Trigger) (fuel : Nat) (st : Station) (t : Test)
       (a : Action) (rest : List Action) (st' : Station) (effs : List Effect)
       (res : Option Nat),
       st.test = some t → t.generated = true → t.actions = a :: rest →
       a.trigger = trig → a.wait = true →
       performActions e fuel st trig = Except.ok (st', effs, res) →
       st'.test = some { t with actions := rest }) := by
  refine ⟨?_, ?_, ?_⟩
  · intro id trig akind fn enc fr ipn dl k
    exact ⟨rfl, fun hfn => by subst hfn; rfl⟩
  · intro e trig fuel st t st' effs res hT hG h
    obtain ⟨lastF, effs0, hLoop, -⟩ := performActions_decomp e fuel st trig t st' effs res hT h
    exact paLoop_drop e trig fuel st none none [] st' lastF res effs0 hLoop t hT hG
  · intro e trig fuel st t a rest st' effs res hT hG hA hTrig hW h
    obtain ⟨lastF, effs0, hLoop, -⟩ := performActions_decomp e fuel st trig t st' effs res hT h
    cases fuel with
    | zero => exact absurd hLoop (by simp [paLoop])
    | succ n =>
      unfold paLoop at hLoop
      rw [hT] at hLoop
      dsimp only at hLoop
      rw [if_pos (show nextTriggerIs t trig = true by
        unfold nextTriggerIs; rw [hA]; simp [hTrig])] at hLoop
      rw [nextAction_of_generated e t st a rest hG hA] at hLoop
      dsimp only at hLoop
      cases hX : execAct e { st with test := some { t with actions := rest } }
          none none a with
      | error u => rw [hX] at hLoop; exact absurd hLoop (by simp)
      | ok out =>
        rcases out with ⟨st2, lastF2, res2, effs2, brk⟩
        rw [hX] at hLoop
        dsimp only at hLoop
        have hb : brk = true := execAct_brk_of_wait e _ none none a st2 lastF2
          res2 effs2 brk hW hX
        subst hb
        rw [if_pos rfl] at hLoop
        simp only [Except.ok.injEq, Prod.mk.injEq] at hLoop
        obtain ⟨h1, -⟩ := hLoop
        rw [← h1]
        exact (execAct_preserves e _ none none a st2 lastF2 res2 effs2 true hX).1

/-- C3 counterexample: `Action.__init__` called with `action=Rekey` and a
`func` (and no explicit `wait`) yields an action whose kind is `Func` — not
one of Rekey/Reconnect/Roam — yet whose `wait` defaults to `True`,
contradicting the claim that the default is false for every other kind. -/
theorem c3_wait_default_counterexample :
    actFuncRekey.action = AKind.func ∧
    ¬(actFuncRekey.action = AKind.rekey ∨ actFuncRekey.action = AKind.reconnect ∨
      actFuncRekey.action = AKind.roam) ∧
    actFuncRekey.wait = true := by
  refine ⟨rfl, ?_, rfl⟩
  decide

/-- Witness for C3: concrete wait defaults, and `perform_actions` on a
queue `[waiting inject, inject]` (same trigger) executes only the first
action and leaves the second queued. -/
theorem c3_wait_semantics_witness :
    (Action.init 5 Trigger.connected AKind.rekey none false none 1 none none none).wait
      = true ∧
    (Action.init 6 Trigger.connected AKind.inject none false none 1 none none none).wait
      = false ∧
    actWait.wait = true ∧ actNext.trigger = Trigger.connected ∧
    (∃ st' effs res,
       performActions extId 5 stWait Trigger.connected = Except.ok (st', effs, res) ∧
       st'.test = some { tWait with actions := [actNext] }) := by
  refine ⟨?_, ?_, by decide, rfl, ?_⟩
  · rw [(c3_wait_semantics.1 5 Trigger.connected AKind.rekey none false none 1 none none).1]
    decide
  · rw [(c3_wait_semantics.1 6 Trigger.connected AKind.inject none false none 1 none none).1]
    decide
  · have hpa : performActions extId 5 stWait Trigger.connected =
        Except.ok ({ stWait with test := some { tWait with actions := [actNext] } },
          [Effect.tx { dot11Default with FCfield := 4 }, Effect.tx dummyFrame], none) := by
      decide
    refine ⟨_, _, _, hpa, ?_⟩
    exact c3_wait_semantics.2.2 extId Trigger.connected 5 stWait tWait actWait
      [actNext] _ _ _ rfl rfl rfl rfl (by decide) hpa

/-- C8: whenever `perform_actions` completes, its effect list is the drain
loop's effect list followed by the workaround dummy frame exactly when the
workaround option is on and the last frame transmitted during the loop (the
specification-side `lastTxFrame` of the loop effects, proven equal to the
code's carried `frame` variable) has the more-fragments flag set; in every
other case nothing is appended. -/
theorem c8_dummy_frame_iff (e : Ext) (fuel : Nat) (st : Station)
    (trig : Trigger) (t : Test) (st' : Station) (effs : List Effect)
    (res : Option Nat) (hT : st.test = some t)
    (h : performActions e fuel st trig = Except.ok (st', effs, res)) :
    ∃ effs0,
      paLoop e trig fuel st none none [] =
        Except.ok (st', lastTxFrame effs0, res, effs0) ∧
      effs = (if st'.options.injectWorkaround && mfSet (lastTxFrame effs0) then
                effs0 ++ [Effect.tx dummyFrame] else effs0) := by
  obtain ⟨lastF, effs0, hLoop, heffs⟩ :=
    performActions_decomp e fuel st trig t st' effs res hT h
  have hL : lastF = lastTxFrame effs0 :=
    paLoop_lastTx e trig fuel st none none [] st' lastF res effs0 hLoop rfl
  subst hL
  exact ⟨effs0, hLoop, heffs⟩

/-- Witness for C8: with the workaround enabled and a final inject whose
frame has the more-fragments flag, the dummy frame is appended; with the
workaround disabled it is not. -/
theorem c8_dummy_frame_iff_witness :
    (∃ effs0,
       paLoop extId Trigger.connected 5 stWait none none [] =
         Except.ok ({ stWait with test := some { tWait with actions := [actNext] } },
           lastTxFrame effs0, none, effs0) ∧
       [Effect.tx { dot11Default with FCfield := 4 }, Effect.tx dummyFrame] =
         (if ({ stWait with test := some { tWait with actions := [actNext] } }
                : Station).options.injectWorkaround && mfSet (lastTxFrame effs0) then
            effs0 ++ [Effect.tx dummyFrame] else effs0)) ∧
    performActions extId 5 stWaitNoWa Trigger.connected =
      Except.ok ({ stWaitNoWa with test := some { tWait with actions := [actNext] } },
        [Effect.tx { dot11Default with FCfield := 4 }], none) := by
  constructor
  · exact c8_dummy_frame_iff extId 5 stWait Trigger.connected tWait
      { stWait with test := some { tWait with actions := [actNext] } }
      [Effect.tx { dot11Default with FCfield := 4 }, Effect.tx dummyFrame] none
      rfl (by decide)
  · decide

end Fragattack
